import Mathlib

/-!
# image-processor: the fan-out / fan-in processing pipeline

A shallow embedding of `internal/image/processor.go` and `internal/config/config.go`.

Modelling conventions
* A Go `string` is a list of Unicode code points (`GoString`); the keys and
  directory names handled here are text.  The byte loops of `path/filepath`
  and `strings` that are embedded below only compare against the ASCII bytes
  `/` and `.`, which never occur inside a multi-byte UTF-8 sequence, so they
  read the same on code points.
* `path/filepath` is embedded for a Unix target (separator `/`, no volume names).
* A Go `error` is a value of `GoError`; `nil` is `Option.none`.
* The storage backend is an interface: it is a parameter, given as a state
  machine over an arbitrary state type, and every call made on it is recorded,
  with its outcome, in a trace.
* The goroutines of the fan-out are interleaved by an explicit schedule; every
  statement about the fan-out is quantified over all schedules.
-/

namespace ImageProcessor

/-! ## Go values -/

/-- A Go string, as its sequence of code points. -/
abbrev GoString := List Char

/-- A Go byte slice; the processor never inspects the bytes it moves. -/
abbrev Bytes := List Nat

/-- A Go error value: either a plain message (`errors.New`, `fmt.Errorf` without `%w`)
or a message together with the error it wraps (`fmt.Errorf` with `%w`). -/
inductive GoError where
  | errorString (s : GoString)
  | wrapError (msg : GoString) (err : GoError)
  deriving DecidableEq, Repr

/-- The method `Error()` of an error value. -/
def GoError.Error : GoError → GoString
  | .errorString s => s
  | .wrapError msg _ => msg

/-- The method `Unwrap()` of an error value. -/
def GoError.Unwrap : GoError → Option GoError
  | .errorString _ => none
  | .wrapError _ err => some err

/-- The call `fmt.Errorf(pre + "%w", err)`: the message is the text before the verb
followed by `err.Error()`, and the result unwraps to `err`. -/
def Errorf_w (pre : GoString) (err : GoError) : GoError :=
  .wrapError (pre ++ err.Error) err

/-! ## package strings -/

/-- The function `strings.HasPrefix(s, p)`: `len(s) >= len(p) && s[:len(p)] == p`. -/
def HasPrefix (s p : GoString) : Bool :=
  decide (s.length ≥ p.length) && decide (s.take p.length = p)

/-- ASCII lower-casing of one code point, the body of the fast path of `strings.ToLower`:
`if 'A' <= c && c <= 'Z' { c += 'a' - 'A' }`. -/
def asciiLower (c : Char) : Char :=
  if 'A'.toNat ≤ c.toNat ∧ c.toNat ≤ 'Z'.toNat then Char.ofNat (c.toNat + ('a'.toNat - 'A'.toNat)) else c

/-- The function `strings.ToLower`.  A string of ASCII code points only is returned
unchanged when it has no upper-case letter and is lower-cased letter by letter otherwise;
any other string is mapped code point by code point through `unicode.ToLower`, whose
case tables are a parameter. -/
def ToLower (unicodeToLower : Char → Char) (s : GoString) : GoString :=
  let isASCII := s.all (fun c => decide (c.toNat < 128))
  let hasUpper := s.any (fun c => decide ('A'.toNat ≤ c.toNat ∧ c.toNat ≤ 'Z'.toNat))
  if isASCII then
    if !hasUpper then s else s.map asciiLower
  else s.map unicodeToLower

/-- The function `strings.Join(elems, sep)`. -/
def stringsJoin : List GoString → GoString → GoString
  | [], _ => []
  | [e], _ => e
  | e :: es, sep => e ++ sep ++ stringsJoin es sep

/-! ## package path/filepath (Unix) -/

/-- The function `os.IsPathSeparator` on Unix. -/
def IsPathSeparator (c : Char) : Bool := c == '/'

/-- The loop of `filepath.Ext`, reading the path from its last byte backwards:
`rev` is what is still to be read (nearest byte first) and `acc` is `path[i+1:]`. -/
def extLoop : List Char → List Char → GoString
  | [], _ => []
  | c :: rev, acc =>
    if IsPathSeparator c then []
    else if c == '.' then c :: acc
    else extLoop rev (c :: acc)

/-- The function `filepath.Ext`:
`for i := len(path)-1; i >= 0 && !IsPathSeparator(path[i]); i-- { if path[i] == '.' { return path[i:] } }; return ""`. -/
def Ext (path : GoString) : GoString := extLoop path.reverse []

/-- The function `filepath.Base` on Unix. -/
def Base (path : GoString) : GoString :=
  if path = [] then ['.']
  else
    -- strip trailing slashes
    let stripped := (path.reverse.dropWhile IsPathSeparator).reverse
    -- find the last element
    let last := (stripped.reverse.takeWhile (fun c => !IsPathSeparator c)).reverse
    -- if empty now, it had only slashes
    if last = [] then ['/'] else last

/-- The inner loop of the `..` case of `filepath.Clean`, started with `out.w` equal to the
argument: `for out.w > dotdot && !IsPathSeparator(out.index(out.w)) { out.w-- }`;
the result is the final `out.w`. -/
def backtrack (buf : List Char) (dotdot : Nat) : Nat → Nat
  | 0 => 0
  | w + 1 =>
    if decide (w + 1 > dotdot) && !IsPathSeparator (buf.getD (w + 1) '/') then backtrack buf dotdot w
    else w + 1

/-- The `..` case of `filepath.Clean`: `buf` is the output written so far (`out.w` is its
length), `dotdot` the index where backtracking must stop.  Returns the new output and
the new `dotdot`. -/
def cleanDotDot (rooted : Bool) (buf : List Char) (dotdot : Nat) : List Char × Nat :=
  if buf.length > dotdot then
    -- can backtrack
    (buf.take (backtrack buf dotdot (buf.length - 1)), dotdot)
  else if !rooted then
    -- cannot backtrack, but not rooted, so append .. element
    let b1 := if buf.length > 0 then buf ++ ['/'] else buf
    let b2 := b1 ++ ['.', '.']
    (b2, b2.length)
  else (buf, dotdot)

/-- The main loop `for r < n` of `filepath.Clean`: `rest` is `path[r:]`, `buf` the output
written so far.  Every iteration reads at least one byte, so a fuel of `len(path)` is
never exhausted (`cleanLoop_fuel`). -/
def cleanLoop (rooted : Bool) : Nat → List Char → List Char → Nat → List Char
  | 0, _, buf, _ => buf
  | fuel + 1, rest, buf, dotdot =>
    match rest with
    | [] => buf
    | c :: tl =>
      if IsPathSeparator c then
        -- empty path element
        cleanLoop rooted fuel tl buf dotdot
      else if c == '.' && (tl.isEmpty || IsPathSeparator (tl.headD '/')) then
        -- . element
        cleanLoop rooted fuel tl buf dotdot
      else if c == '.' && tl.headD '/' == '.' &&
          (tl.tail.isEmpty || IsPathSeparator (tl.tail.headD '/')) then
        -- .. element: remove to last separator
        let r := cleanDotDot rooted buf dotdot
        cleanLoop rooted fuel tl.tail r.1 r.2
      else
        -- real path element: add slash if needed, then copy the element
        let buf1 :=
          if (rooted && buf.length != 1) || (!rooted && buf.length != 0) then buf ++ ['/'] else buf
        let elt := (c :: tl).takeWhile (fun x => !IsPathSeparator x)
        cleanLoop rooted fuel ((c :: tl).dropWhile (fun x => !IsPathSeparator x)) (buf1 ++ elt) dotdot

/-- The function `filepath.Clean` on Unix (no volume name, `FromSlash` is the identity). -/
def Clean (path : GoString) : GoString :=
  if path = [] then ['.']
  else
    let rooted := IsPathSeparator (path.headD '.')
    let out :=
      if rooted then cleanLoop true path.length path.tail ['/'] 1
      else cleanLoop false path.length path [] 0
    -- turn empty string into "."
    if out = [] then ['.'] else out

/-- The function `filepath.Join` on Unix: the elements from the first non-empty one on are
joined with `/` and cleaned; the result is empty when every element is. -/
def Join : List GoString → GoString
  | [] => []
  | e :: es => if e ≠ [] then Clean (stringsJoin (e :: es) ['/']) else Join es

/-! ## package config -/

/-- The struct `config.GCSEvent`. -/
structure GCSEvent where
  Bucket : GoString
  Name : GoString
  deriving DecidableEq, Repr

/-- The struct `config.Config`. -/
structure Config where
  SmallImgDir : GoString
  MedImgDir : GoString
  OrgImgDir : GoString
  FileDir : GoString
  deriving DecidableEq, Repr

/-- The struct `config.ImageTarget`; a field left out of a literal is its zero value. -/
structure ImageTarget where
  Path : GoString
  Width : Int := 0
  Quality : Int := 0
  IsOrg : Bool := false
  deriving DecidableEq, Repr

/-! ## package image: the storage port and the libraries -/

/-- A request made on the storage port. -/
inductive Req where
  | download (bucket object : GoString)
  | upload (bucket object : GoString) (data : Bytes)
  | delete (bucket object : GoString)
  deriving DecidableEq, Repr

/-- One recorded call on the storage port: the request and the error it returned. -/
structure Call where
  req : Req
  err : Option GoError
  deriving DecidableEq, Repr

/-- The interface `StorageService`, as a state machine over the backend state `σ`:
every method returns its Go results and the next state.  A call is atomic with respect
to the calls of other goroutines. -/
structure StorageService (σ : Type) where
  Download : σ → GoString → GoString → (Bytes × Option GoError) × σ
  Upload : σ → GoString → GoString → Bytes → Option GoError × σ
  Delete : σ → GoString → GoString → Option GoError × σ

/-- The library functions the processor calls and that are not part of the repository:
the case tables of `unicode.ToLower`, `image.Decode`, `imaging.Resize` with the Lanczos
filter and `imaging.Encode` to JPEG at a quality (the bytes written and the error). -/
structure Libs (Img : Type) where
  unicodeToLower : Char → Char
  Decode : Bytes → Except GoError Img
  Resize : Img → Int → Int → Img
  Encode : Img → Int → Bytes × Option GoError

/-- The struct `processor` (its logger does not influence control flow and is left out). -/
structure processor (σ : Type) where
  storage : StorageService σ
  config : Config

/-- The method `processor.isSupportedFormat`. -/
def isSupportedFormat {Img : Type} (lib : Libs Img) (filename : GoString) : Bool :=
  let supportedExtensions : List GoString :=
    [".jpg".toList, ".jpeg".toList, ".png".toList, ".webp".toList]
  let ext := ToLower lib.unicodeToLower (Ext filename)
  supportedExtensions.any (fun supportedExt => decide (ext = supportedExt))

/-- The method `processor.processAndUpload`, run on the backend state `s`: the error it
returns, the storage calls it made, and the next backend state. -/
def processAndUpload {σ Img : Type} (lib : Libs Img) (p : processor σ) (s : σ)
    (bucket : GoString) (img : Img) (originalData : Bytes) (target : ImageTarget) :
    Option GoError × List Call × σ :=
  if target.IsOrg then
    let r := p.storage.Upload s bucket target.Path originalData
    (r.1, [⟨.upload bucket target.Path originalData, r.1⟩], r.2)
  else
    let resizedImg := lib.Resize img target.Width 0
    let enc := lib.Encode resizedImg target.Quality
    match enc.2 with
    | some err => (some (Errorf_w "failed to encode image: ".toList err), [], s)
    | none =>
      let r := p.storage.Upload s bucket target.Path enc.1
      (r.1, [⟨.upload bucket target.Path enc.1, r.1⟩], r.2)

/-! ## The fan-out: goroutines, the error channel, the wait group -/

/-- Where a fan-out goroutine stands: about to call `processAndUpload`, about to send the
error it got on `errs`, or returned (`wg.Done()` executed). -/
inductive PC where
  | ready
  | sending (e : GoError)
  | done
  deriving DecidableEq, Repr

/-- One goroutine started by the loop of `Process`: its argument `t` and its position. -/
structure Goroutine where
  t : ImageTarget
  pc : PC
  deriving DecidableEq, Repr

/-- A buffered channel of errors, `make(chan error, cap)`. -/
structure Chan where
  cap : Nat
  buf : List GoError
  deriving DecidableEq, Repr

/-- A send on a buffered channel nobody receives from: it goes through while the buffer
has room and blocks (`none`) when it is full. -/
def Chan.send (ch : Chan) (e : GoError) : Option Chan :=
  if ch.buf.length < ch.cap then some { ch with buf := ch.buf ++ [e] } else none

/-- The state of the fan-out: the goroutines, the channel `errs`, the storage calls made
so far by the goroutines, and the backend state. -/
structure FanState (σ : Type) where
  tasks : List Goroutine
  errs : Chan
  calls : List Call
  store : σ

/-- The state right after the loop `for _, target := range target { wg.Add(1); go ... }`
with `errs := make(chan error, len(target))`. -/
def fanInit {σ : Type} (s : σ) (target : List ImageTarget) : FanState σ :=
  { tasks := target.map (fun t => { t := t, pc := .ready }),
    errs := { cap := target.length, buf := [] },
    calls := [],
    store := s }

/-- One step of goroutine `i`:
`if err := p.processAndUpload(...); err != nil { errs <- fmt.Errorf("failed to process and upload %s: %w", t.Path, err) }`.
A goroutine that is blocked on its send, or that has returned, does not move. -/
def stepTask {σ Img : Type} (lib : Libs Img) (p : processor σ) (bucket : GoString) (img : Img)
    (originalData : Bytes) (st : FanState σ) (i : Nat) : FanState σ :=
  match st.tasks[i]? with
  | none => st
  | some g =>
    match g.pc with
    | .ready =>
      let r := processAndUpload lib p st.store bucket img originalData g.t
      match r.1 with
      | some err =>
        let wrapped :=
          Errorf_w ("failed to process and upload ".toList ++ g.t.Path ++ ": ".toList) err
        { tasks := st.tasks.set i { g with pc := PC.sending wrapped },
          errs := st.errs,
          calls := st.calls ++ r.2.1,
          store := r.2.2 }
      | none =>
        { tasks := st.tasks.set i { g with pc := .done },
          errs := st.errs,
          calls := st.calls ++ r.2.1,
          store := r.2.2 }
    | .sending e =>
      match st.errs.send e with
      | some ch => { st with tasks := st.tasks.set i { g with pc := .done }, errs := ch }
      | none => st
    | .done => st

/-- The goroutines run in the order the schedule gives: each entry lets the goroutine of
that index take one step. -/
def runSched {σ Img : Type} (lib : Libs Img) (p : processor σ) (bucket : GoString) (img : Img)
    (originalData : Bytes) (st : FanState σ) (sched : List Nat) : FanState σ :=
  sched.foldl (stepTask lib p bucket img originalData) st

/-- The call `wg.Wait()` lets every goroutine that has not returned yet run on: each one,
in turn, takes the two steps it can have left. -/
def drain {σ Img : Type} (lib : Libs Img) (p : processor σ) (bucket : GoString) (img : Img)
    (originalData : Bytes) (st : FanState σ) : FanState σ :=
  (List.range st.tasks.length).foldl
    (fun acc i => stepTask lib p bucket img originalData
      (stepTask lib p bucket img originalData acc i) i) st

/-- The fan-out up to the point where `wg.Wait()` returns or is stuck: the goroutines are
started, interleaved as `sched` says, and then run on by `wg.Wait()`.  Every interleaving
of the goroutines is the one of some schedule. -/
def fanOut {σ Img : Type} (lib : Libs Img) (p : processor σ) (bucket : GoString) (img : Img)
    (originalData : Bytes) (target : List ImageTarget) (s : σ) (sched : List Nat) : FanState σ :=
  drain lib p bucket img originalData
    (runSched lib p bucket img originalData (fanInit s target) sched)

/-- Whether every goroutine has returned, which is when `wg.Wait()` returns. -/
def FanState.allDone {σ : Type} (st : FanState σ) : Bool :=
  st.tasks.all (fun g => decide (g.pc = .done))

/-! ## Process -/

/-- How a call of `Process` ends: it returns an error value (or `nil`), or it never
returns because `wg.Wait()` waits for a goroutine blocked on its send. -/
inductive Result where
  | returned (err : Option GoError)
  | blocked
  deriving DecidableEq, Repr

/-- What a call of `Process` does: how it ends, the storage calls made, in order, with
their outcomes, and the backend state it leaves. -/
structure Outcome (σ : Type) where
  result : Result
  calls : List Call
  store : σ

/-- The target plan of `Process`: the slice literal `target`. -/
def targetPlan (config : Config) (name : GoString) : List ImageTarget :=
  let baseFilename := Base name
  [ { Path := Join [config.SmallImgDir, baseFilename], Width := 400, Quality := 65 },
    { Path := Join [config.MedImgDir, baseFilename], Width := 800, Quality := 75 },
    { Path := Join [config.OrgImgDir, baseFilename], IsOrg := true } ]

/-- The method `processor.Process`, run from the backend state `s` with the goroutines of
the fan-out interleaved as `sched` says. -/
def Process {σ Img : Type} (lib : Libs Img) (p : processor σ) (s : σ) (sched : List Nat)
    (event : GCSEvent) (deleteOriginal : Bool) : Outcome σ :=
  -- validate the trigger event
  if !HasPrefix event.Name p.config.FileDir then
    { result := .returned (some (.errorString
        ("file ".toList ++ event.Name ++ " is not in the ".toList ++ p.config.FileDir
          ++ " directory".toList))),
      calls := [], store := s }
  else if !isSupportedFormat lib event.Name then
    { result := .returned (some (.errorString
        ("unsupported file format for ".toList ++ event.Name))),
      calls := [], store := s }
  else
    -- download the original image
    let dl := p.storage.Download s event.Bucket event.Name
    let imageData := dl.1.1
    let c1 : Call := ⟨.download event.Bucket event.Name, dl.1.2⟩
    match dl.1.2 with
    | some err =>
      { result := .returned (some (Errorf_w "failed to download image: ".toList err)),
        calls := [c1], store := dl.2 }
    | none =>
      match lib.Decode imageData with
      | .error err =>
        { result := .returned (some (Errorf_w "failed to decode image: ".toList err)),
          calls := [c1], store := dl.2 }
      | .ok img =>
        -- concurrently process and upload images
        let target := targetPlan p.config event.Name
        let fan := fanOut lib p event.Bucket img imageData target dl.2 sched
        if !fan.allDone then
          -- wg.Wait() does not return
          { result := .blocked, calls := c1 :: fan.calls, store := fan.store }
        else
          -- close(errs); for err := range errs { if err != nil { return err } }
          match fan.errs.buf with
          | err :: _ =>
            { result := .returned (some err), calls := c1 :: fan.calls, store := fan.store }
          | [] =>
            -- delete the original upload
            if deleteOriginal then
              let del := p.storage.Delete fan.store event.Bucket event.Name
              let c2 : Call := ⟨.delete event.Bucket event.Name, del.1⟩
              match del.1 with
              | some err =>
                { result := .returned
                    (some (Errorf_w "failed to delete original image: ".toList err)),
                  calls := c1 :: fan.calls ++ [c2], store := del.2 }
              | none =>
                { result := .returned none, calls := c1 :: fan.calls ++ [c2], store := del.2 }
            else
              { result := .returned none, calls := c1 :: fan.calls, store := fan.store }

/-! ## A mock backend, for concrete runs -/

/-- A backend in the manner of the test's mock: no state, `Download` of the key `good`
returns `data` and fails for any other key, `Upload` fails exactly for the keys in
`badUp`, and `Delete` fails when `badDel` is set. -/
def mockStorage (good : GoString) (data : Bytes) (badUp : List GoString) (badDel : Bool) :
    StorageService Unit where
  Download := fun _ _ object =>
    if object = good then ((data, none), ()) else (([], some (.errorString "file does not exist".toList)), ())
  Upload := fun _ _ object _ =>
    if object ∈ badUp then (some (.errorString "invalid argument".toList), ()) else (none, ())
  Delete := fun _ _ _ =>
    if badDel then (some (.errorString "permission denied".toList), ()) else (none, ())

/-- Stand-in libraries for concrete runs: an image is its bytes, decoding fails on empty
input, resizing keeps the image, encoding prepends the quality. -/
def mockLibs : Libs Bytes where
  unicodeToLower := id
  Decode := fun b => if b = [] then .error (.errorString "image: unknown format".toList) else .ok b
  Resize := fun img _ _ => img
  Encode := fun img q => (q.toNat :: img, none)

/-- The configuration of the tests. -/
def testConfig : Config :=
  { SmallImgDir := "small/".toList, MedImgDir := "medium/".toList,
    OrgImgDir := "original/".toList, FileDir := "uploads/".toList }

/-- The event of the tests. -/
def testEvent : GCSEvent :=
  { Bucket := "test-bucket".toList, Name := "uploads/gopher.png".toList }

/-- The image bytes of the concrete runs. -/
def testData : Bytes := [1, 2, 3]

/-- The processor of the concrete runs: the mock backend holding `testData` under the key of
`testEvent`, with the uploads in `badUp` and, if `badDel`, the delete failing. -/
def testProc (badUp : List GoString) (badDel : Bool) : processor Unit :=
  { storage := mockStorage testEvent.Name testData badUp badDel, config := testConfig }

/-- Stand-in libraries whose encoder fails at quality 75, that is on the medium target, and
behaves as in `mockLibs` otherwise. -/
def encodeFailLibs : Libs Bytes where
  unicodeToLower := id
  Decode := fun b => if b = [] then .error (.errorString "image: unknown format".toList) else .ok b
  Resize := fun img _ _ => img
  Encode := fun img q =>
    if q = 75 then ([], some (.errorString "jpeg: image is too large to encode".toList))
    else (q.toNat :: img, none)

/-- A backend with state, the number of uploads seen so far: `Download` returns `data`, the
first `Upload` fails and every later one succeeds, `Delete` succeeds. -/
def flakyStorage (data : Bytes) : StorageService Nat where
  Download := fun n _ _ => ((data, none), n)
  Upload := fun n _ _ _ =>
    if n = 0 then (some (.errorString "connection reset".toList), n + 1) else (none, n + 1)
  Delete := fun n _ _ => (none, n)

/-- A configuration whose small and medium directories are the same. -/
def sharedDirConfig : Config :=
  { SmallImgDir := "out/".toList, MedImgDir := "out/".toList,
    OrgImgDir := "original/".toList, FileDir := "uploads/".toList }

/-! ## Vocabulary of the statements -/

/-- What `processAndUpload` has in `outputBuffer` for a target once the buffer is filled,
and the error of the encoder: the downloaded bytes for the passthrough target, the
encoding of the resized image otherwise. -/
def rendition {Img : Type} (lib : Libs Img) (img : Img) (originalData : Bytes)
    (t : ImageTarget) : Bytes × Option GoError :=
  if t.IsOrg then (originalData, none) else lib.Encode (lib.Resize img t.Width 0) t.Quality

/-- The upload request a target leads to, when its encoding succeeds. -/
def expectedReq {Img : Type} (lib : Libs Img) (bucket : GoString) (img : Img)
    (originalData : Bytes) (t : ImageTarget) : Option Req :=
  match (rendition lib img originalData t).2 with
  | none => some (.upload bucket t.Path (rendition lib img originalData t).1)
  | some _ => none

/-- The error a goroutine sends on `errs` for target `t` when `processAndUpload` returned `cause`. -/
def taskError (t : ImageTarget) (cause : GoError) : GoError :=
  Errorf_w ("failed to process and upload ".toList ++ t.Path ++ ": ".toList) cause

/-- A recorded call is an upload that failed. -/
def Call.failedUpload (c : Call) : Bool :=
  match c.req, c.err with
  | .upload _ _ _, some _ => true
  | _, _ => false

/-- A recorded call is a delete. -/
def Call.isDelete (c : Call) : Bool :=
  match c.req with
  | .delete _ _ => true
  | _ => false

/-- A recorded call is an upload. -/
def Call.isUpload (c : Call) : Bool :=
  match c.req with
  | .upload _ _ _ => true
  | _ => false

/-- The encoder fails on a target. -/
def encodeFails {Img : Type} (lib : Libs Img) (img : Img) (originalData : Bytes)
    (t : ImageTarget) : Bool :=
  (rendition lib img originalData t).2.isSome

/-- The upload request a goroutine has still to make: the one of its target while it has not
run `processAndUpload`, none afterwards. -/
def Goroutine.pending {Img : Type} (lib : Libs Img) (bucket : GoString) (img : Img)
    (originalData : Bytes) (g : Goroutine) : Option Req :=
  match g.pc with
  | .ready => expectedReq lib bucket img originalData g.t
  | _ => none

/-- The goroutine holds an error it has not sent yet. -/
def Goroutine.isSending (g : Goroutine) : Bool :=
  match g.pc with
  | .sending _ => true
  | _ => false

/-- The goroutine has not returned. -/
def Goroutine.notDone (g : Goroutine) : Bool :=
  match g.pc with
  | .done => false
  | _ => true

/-- The goroutine has run `processAndUpload` and the encoder failed in it. -/
def Goroutine.ranEncodeFail {Img : Type} (lib : Libs Img) (img : Img) (originalData : Bytes)
    (g : Goroutine) : Bool :=
  match g.pc with
  | .ready => false
  | _ => encodeFails lib img originalData g.t

/-- The error `e` is the error of a failed rendition of the plan `ts`: it is
"failed to process and upload <t.Path>: <cause>" wrapping `cause` for a target `t` of the
plan, where either the encoder failed on `t` and `cause` is "failed to encode image: ..."
wrapping the encoder's error, or the trace `calls` has the upload of `t` failing with
`cause`. -/
def FailedRendition {Img : Type} (lib : Libs Img) (bucket : GoString) (img : Img)
    (originalData : Bytes) (ts : List ImageTarget) (calls : List Call) (e : GoError) : Prop :=
  ∃ t ∈ ts, ∃ cause, e = taskError t cause ∧
    ((∃ ee, (rendition lib img originalData t).2 = some ee
        ∧ cause = Errorf_w "failed to encode image: ".toList ee)
      ∨ ((rendition lib img originalData t).2 = none
        ∧ (⟨.upload bucket t.Path (rendition lib img originalData t).1, some cause⟩ : Call)
            ∈ calls))

/-- The moves of the fan-out, one per line of a goroutine's body: `processAndUpload` fails in
the encoder, fails in `Upload`, succeeds, and the send on `errs`. -/
inductive Step {σ Img : Type} (lib : Libs Img) (p : processor σ) (bucket : GoString) (img : Img)
    (originalData : Bytes) : FanState σ → FanState σ → Prop where
  | encodeFail (l1 l2 : List Goroutine) (t : ImageTarget) (ee : GoError) (errs : Chan)
      (calls : List Call) (store : σ) :
      (rendition lib img originalData t).2 = some ee →
      Step lib p bucket img originalData
        ⟨l1 ++ ⟨t, .ready⟩ :: l2, errs, calls, store⟩
        ⟨l1 ++ ⟨t, .sending (taskError t (Errorf_w "failed to encode image: ".toList ee))⟩ :: l2,
          errs, calls, store⟩
  | uploadFail (l1 l2 : List Goroutine) (t : ImageTarget) (cause : GoError) (errs : Chan)
      (calls : List Call) (store : σ) :
      (rendition lib img originalData t).2 = none →
      (p.storage.Upload store bucket t.Path (rendition lib img originalData t).1).1 = some cause →
      Step lib p bucket img originalData
        ⟨l1 ++ ⟨t, .ready⟩ :: l2, errs, calls, store⟩
        ⟨l1 ++ ⟨t, .sending (taskError t cause)⟩ :: l2, errs,
          calls ++ [⟨.upload bucket t.Path (rendition lib img originalData t).1, some cause⟩],
          (p.storage.Upload store bucket t.Path (rendition lib img originalData t).1).2⟩
  | uploadOk (l1 l2 : List Goroutine) (t : ImageTarget) (errs : Chan)
      (calls : List Call) (store : σ) :
      (rendition lib img originalData t).2 = none →
      (p.storage.Upload store bucket t.Path (rendition lib img originalData t).1).1 = none →
      Step lib p bucket img originalData
        ⟨l1 ++ ⟨t, .ready⟩ :: l2, errs, calls, store⟩
        ⟨l1 ++ ⟨t, .done⟩ :: l2, errs,
          calls ++ [⟨.upload bucket t.Path (rendition lib img originalData t).1, none⟩],
          (p.storage.Upload store bucket t.Path (rendition lib img originalData t).1).2⟩
  | send (l1 l2 : List Goroutine) (t : ImageTarget) (e : GoError) (cap : Nat)
      (buf : List GoError) (calls : List Call) (store : σ) :
      buf.length < cap →
      Step lib p bucket img originalData
        ⟨l1 ++ ⟨t, .sending e⟩ :: l2, ⟨cap, buf⟩, calls, store⟩
        ⟨l1 ++ ⟨t, .done⟩ :: l2, ⟨cap, buf ++ [e]⟩, calls, store⟩

/-- The invariant of the fan-out over the plan `ts`: the goroutines are those of the plan, in
order; the channel has one slot per target and room for every goroutine that has not
returned; the uploads made and those still to make are, together, one per target that
encodes; the errors produced are as many as the failures so far; and every error produced
is the error of a failed rendition. -/
structure FanInv {σ Img : Type} (lib : Libs Img) (bucket : GoString) (img : Img)
    (originalData : Bytes) (ts : List ImageTarget) (st : FanState σ) : Prop where
  tg : st.tasks.map Goroutine.t = ts
  cap : st.errs.cap = ts.length
  room : st.errs.buf.length + st.tasks.countP Goroutine.notDone ≤ st.errs.cap
  reqs : (st.calls.map Call.req
      ++ st.tasks.filterMap (Goroutine.pending lib bucket img originalData)).Perm
        (ts.filterMap (expectedReq lib bucket img originalData))
  ups : ∀ c ∈ st.calls, c.isUpload = true
  cnt : st.errs.buf.length + st.tasks.countP Goroutine.isSending
      = st.calls.countP Call.failedUpload
        + st.tasks.countP (Goroutine.ranEncodeFail lib img originalData)
  good : ∀ e, (e ∈ st.errs.buf ∨ ∃ g ∈ st.tasks, g.pc = .sending e) →
      FailedRendition lib bucket img originalData ts st.calls e

/-- The fan-out `Process` runs for an event once the downloaded bytes have been decoded to
`img`: over the target plan, on the event's bucket, from the backend state the download left. -/
def processFan {σ Img : Type} (lib : Libs Img) (p : processor σ) (s : σ) (sched : List Nat)
    (event : GCSEvent) (img : Img) : FanState σ :=
  fanOut lib p event.Bucket img (p.storage.Download s event.Bucket event.Name).1.1
    (targetPlan p.config event.Name) (p.storage.Download s event.Bucket event.Name).2 sched

/-- Goroutine `j` has returned. -/
def FanState.doneAt {σ : Type} (st : FanState σ) (j : Nat) : Prop :=
  ∃ g, st.tasks[j]? = some g ∧ g.pc = .done

end ImageProcessor

namespace ImageProcessor

/-! ## Helper lemmas: strings and paths -/

theorem cleanLoop_succ (rooted : Bool) :
    ∀ (fuel : Nat) (rest buf : List Char) (dotdot : Nat), rest.length ≤ fuel →
      cleanLoop rooted (fuel + 1) rest buf dotdot = cleanLoop rooted fuel rest buf dotdot := by
  intro fuel
  induction fuel with
  | zero =>
    intro rest buf dotdot h
    have : rest = [] := List.length_eq_zero.mp (Nat.le_zero.mp h)
    subst this
    simp [cleanLoop]
  | succ f ih =>
    intro rest buf dotdot h
    cases rest with
    | nil => simp [cleanLoop]
    | cons c tl =>
      have htl : tl.length ≤ f := by simpa using h
      have htl2 : tl.tail.length ≤ f := by
        have := List.length_tail tl
        omega
      rw [cleanLoop, cleanLoop]
      simp only []
      split
      · exact ih tl buf dotdot htl
      · split
        · exact ih tl buf dotdot htl
        · split
          · exact ih _ _ _ htl2
          · rename_i hsep _ _
            apply ih
            have hc : (!IsPathSeparator c) = true := by simpa using hsep
            have hd : List.dropWhile (fun x => !IsPathSeparator x) (c :: tl)
                = List.dropWhile (fun x => !IsPathSeparator x) tl := by
              simp [List.dropWhile_cons, hc]
            rw [hd]
            exact le_trans (List.Sublist.length_le (List.dropWhile_sublist _)) htl

/-- The fuel given to the loop of `Clean` is never exhausted: any larger fuel gives the same
output. -/
theorem cleanLoop_fuel (rooted : Bool) (rest buf : List Char) (dotdot : Nat) (extra : Nat) :
    cleanLoop rooted (rest.length + extra) rest buf dotdot
      = cleanLoop rooted rest.length rest buf dotdot := by
  induction extra with
  | zero => rfl
  | succ k ih =>
    rw [← Nat.add_assoc, cleanLoop_succ rooted _ _ _ _ (Nat.le_add_right _ _), ih]

theorem extLoop_skip :
    ∀ (l rest acc : List Char), (∀ x ∈ l, x ≠ '/' ∧ x ≠ '.') →
      extLoop (l ++ rest) acc = extLoop rest (l.reverse ++ acc) := by
  intro l
  induction l with
  | nil => intro rest acc _; rfl
  | cons c l ih =>
    intro rest acc h
    have hc := h c (by simp)
    have hl : ∀ x ∈ l, x ≠ '/' ∧ x ≠ '.' := fun x hx => h x (by simp [hx])
    have e1 : extLoop (c :: l ++ rest) acc = extLoop (l ++ rest) (c :: acc) := by
      simp [extLoop, IsPathSeparator, hc.1, hc.2]
    rw [e1, ih rest (c :: acc) hl]
    simp

/-- The extension is the suffix from the last dot: `Ext` of a path that ends in a dot followed
by `e`, where `e` has neither a dot nor a slash, is that dot and `e`. -/
theorem Ext_dot (pre e : List Char) (h : ∀ x ∈ e, x ≠ '/' ∧ x ≠ '.') :
    Ext (pre ++ '.' :: e) = '.' :: e := by
  unfold Ext
  rw [List.reverse_append, List.reverse_cons, List.append_assoc,
    extLoop_skip e.reverse _ [] (by simpa using h)]
  simp [extLoop, IsPathSeparator]

/-- The extension is empty when the final element has no dot: `Ext` of a path whose part
after the last slash is `seg`, without a dot, is empty; so is `Ext` of a path with neither a
dot nor a slash. -/
theorem Ext_none (seg : List Char) (h : ∀ x ∈ seg, x ≠ '/' ∧ x ≠ '.') :
    (∀ pre, Ext (pre ++ '/' :: seg) = []) ∧ Ext seg = [] := by
  constructor
  · intro pre
    unfold Ext
    rw [List.reverse_append, List.reverse_cons, List.append_assoc,
      extLoop_skip seg.reverse _ [] (by simpa using h)]
    simp [extLoop, IsPathSeparator]
  · unfold Ext
    have := extLoop_skip seg.reverse [] [] (by simpa using h)
    rw [List.append_nil] at this
    rw [this]
    rfl

theorem takeWhile_append_stop {α : Type} (q : α → Bool) :
    ∀ (l r : List α) (a : α), (∀ x ∈ l, q x = true) → q a = false →
      (l ++ a :: r).takeWhile q = l := by
  intro l
  induction l with
  | nil => intro r a _ ha; simp [List.takeWhile, ha]
  | cons x xs ih =>
    intro r a h ha
    have hx := h x (by simp)
    simp only [List.cons_append, List.takeWhile_cons, hx, if_true]
    rw [ih r a (fun y hy => h y (by simp [hy])) ha]

/-- The base is the final path element: `Base` of a path whose part after the last slash is
a non-empty `file` is `file`, and `Base` of a non-empty path without a slash is the path. -/
theorem Base_last (file : List Char) (hne : file ≠ []) (h : ∀ x ∈ file, x ≠ '/') :
    (∀ dir, Base (dir ++ '/' :: file) = file) ∧ Base file = file := by
  obtain ⟨c, l, hcl⟩ : ∃ c l, file.reverse = c :: l := by
    cases hr : file.reverse with
    | nil => exact absurd (List.reverse_eq_nil_iff.mp hr) hne
    | cons c l => exact ⟨c, l, rfl⟩
  have hc : c ≠ '/' := h c (by
    have : c ∈ file.reverse := by rw [hcl]; simp
    simpa using this)
  have hrev : ∀ x ∈ file.reverse, (!IsPathSeparator x) = true := by
    intro x hx
    have := h x (by simpa using hx)
    simp [IsPathSeparator, this]
  constructor
  · intro dir
    unfold Base
    have hne2 : dir ++ '/' :: file ≠ [] := by simp
    simp only [hne2, if_false]
    have hstrip : ((dir ++ '/' :: file).reverse.dropWhile IsPathSeparator)
        = (dir ++ '/' :: file).reverse := by
      rw [List.reverse_append, List.reverse_cons, hcl]
      have hb : (c == '/') = false := by simp [hc]
      simp [List.dropWhile, IsPathSeparator, hb]
    rw [hstrip, List.reverse_reverse, List.reverse_append, List.reverse_cons, List.append_assoc]
    have htake : List.takeWhile (fun c => !IsPathSeparator c)
        (file.reverse ++ (['/'] ++ dir.reverse)) = file.reverse :=
      takeWhile_append_stop _ file.reverse dir.reverse '/' hrev (by simp [IsPathSeparator])
    rw [htake, List.reverse_reverse]
    simp [hne]
  · unfold Base
    simp only [hne, if_false]
    have hstrip : (file.reverse.dropWhile IsPathSeparator) = file.reverse := by
      rw [hcl]
      have hb : (c == '/') = false := by simp [hc]
      simp [List.dropWhile, IsPathSeparator, hb]
    rw [hstrip, List.reverse_reverse]
    have htake : List.takeWhile (fun c => !IsPathSeparator c) file.reverse = file.reverse :=
      List.takeWhile_eq_self_iff.mpr hrev
    rw [htake, List.reverse_reverse]
    simp [hne]

/-! ## Validation and download -/

/-- C1: when the event's Name does not start with `config.FileDir`, `Process` (whatever
`deleteOriginal`, backend, schedule) returns an error whose message contains
"is not in the <FileDir> directory", and makes no storage call at all. -/
theorem Process_rejects_outside_FileDir {σ Img : Type} (lib : Libs Img) (p : processor σ)
    (s : σ) (sched : List Nat) (event : GCSEvent) (deleteOriginal : Bool)
    (h : HasPrefix event.Name p.config.FileDir = false) :
    ∃ err, (Process lib p s sched event deleteOriginal).result = .returned (some err)
      ∧ ("is not in the ".toList ++ p.config.FileDir ++ " directory".toList) <:+: err.Error
      ∧ (Process lib p s sched event deleteOriginal).calls = [] := by
  refine ⟨.errorString ("file ".toList ++ event.Name ++ " is not in the ".toList
    ++ p.config.FileDir ++ " directory".toList), ?_, ?_, ?_⟩
  · simp [Process, h]
  · refine ⟨"file ".toList ++ event.Name ++ " ".toList, [], ?_⟩
    simp [GoError.Error]
  · simp [Process, h]

theorem Process_rejects_outside_FileDir_witness :
    HasPrefix "gopher.png".toList testConfig.FileDir = false ∧
    ∃ err, (Process mockLibs ⟨mockStorage [] [] [] false, testConfig⟩ () []
        ⟨"test-bucket".toList, "gopher.png".toList⟩ false).result = .returned (some err)
      ∧ ("is not in the ".toList ++ testConfig.FileDir ++ " directory".toList) <:+: err.Error
      ∧ (Process mockLibs ⟨mockStorage [] [] [] false, testConfig⟩ () []
        ⟨"test-bucket".toList, "gopher.png".toList⟩ false).calls = [] :=
  ⟨by decide, Process_rejects_outside_FileDir mockLibs ⟨mockStorage [] [] [] false, testConfig⟩ () []
    ⟨"test-bucket".toList, "gopher.png".toList⟩ false (by decide)⟩

/-- C10: for an event that passes validation, when `Download` fails with cause `e`,
`Process` returns "failed to download image: <e>" wrapping `e`, and the only storage call
made is that one `Download` of the event's (Bucket, Name): no `Upload`, no `Delete`,
whatever `deleteOriginal`. -/
theorem Process_download_failure {σ Img : Type} (lib : Libs Img) (p : processor σ)
    (s : σ) (sched : List Nat) (event : GCSEvent) (deleteOriginal : Bool) (e : GoError)
    (hdir : HasPrefix event.Name p.config.FileDir = true)
    (hfmt : isSupportedFormat lib event.Name = true)
    (hdl : (p.storage.Download s event.Bucket event.Name).1.2 = some e) :
    (Process lib p s sched event deleteOriginal).result
        = .returned (some (.wrapError ("failed to download image: ".toList ++ e.Error) e))
      ∧ (GoError.wrapError ("failed to download image: ".toList ++ e.Error) e).Unwrap = some e
      ∧ (Process lib p s sched event deleteOriginal).calls
        = [⟨.download event.Bucket event.Name, some e⟩] := by
  refine ⟨?_, rfl, ?_⟩ <;> simp [Process, hdir, hfmt, hdl, Errorf_w]

theorem Process_download_failure_witness :
    (Process mockLibs ⟨mockStorage [] [] [] false, testConfig⟩ () [] testEvent true).result
        = .returned (some (.wrapError ("failed to download image: ".toList
            ++ (GoError.errorString "file does not exist".toList).Error)
            (.errorString "file does not exist".toList)))
      ∧ (GoError.wrapError ("failed to download image: ".toList
            ++ (GoError.errorString "file does not exist".toList).Error)
            (.errorString "file does not exist".toList)).Unwrap
          = some (.errorString "file does not exist".toList)
      ∧ (Process mockLibs ⟨mockStorage [] [] [] false, testConfig⟩ () [] testEvent true).calls
        = [⟨.download testEvent.Bucket testEvent.Name,
            some (.errorString "file does not exist".toList)⟩] :=
  Process_download_failure mockLibs ⟨mockStorage [] [] [] false, testConfig⟩ () [] testEvent true
    (.errorString "file does not exist".toList) (by decide) (by decide) (by decide)

theorem Process_calls_ne_nil_of_valid {σ Img : Type} (lib : Libs Img) (p : processor σ)
    (s : σ) (sched : List Nat) (event : GCSEvent) (deleteOriginal : Bool)
    (hdir : HasPrefix event.Name p.config.FileDir = true)
    (hfmt : isSupportedFormat lib event.Name = true) :
    (Process lib p s sched event deleteOriginal).calls ≠ [] := by
  simp only [Process, hdir, hfmt]
  simp only [Bool.not_true, Bool.false_eq_true, if_false]
  repeat' split
  all_goals simp

theorem isSupportedFormat_iff {Img : Type} (lib : Libs Img) (name : GoString) :
    isSupportedFormat lib name = true ↔
      ToLower lib.unicodeToLower (Ext name)
        ∈ [".jpg".toList, ".jpeg".toList, ".png".toList, ".webp".toList] := by
  simp [isSupportedFormat]

/-- C2: for an event whose Name starts with `config.FileDir`, `Process` fails with
"unsupported file format for <Name>" without any storage call if and only if the
lower-cased extension of Name (`filepath.Ext`, then `strings.ToLower`) is none of
.jpg, .jpeg, .png, .webp; a Name whose extension is .gif, .bmp or empty is rejected, and
one whose extension is .JPG, .Png or .WEBP passes validation.  The extension is the suffix
from the last dot of the part after the last slash, and is empty when that part has no dot. -/
theorem Process_unsupported_format_iff {σ Img : Type} (lib : Libs Img) (p : processor σ)
    (s : σ) (sched : List Nat) (event : GCSEvent) (deleteOriginal : Bool)
    (hdir : HasPrefix event.Name p.config.FileDir = true) :
    (((Process lib p s sched event deleteOriginal).result
          = .returned (some (.errorString ("unsupported file format for ".toList ++ event.Name)))
        ∧ (Process lib p s sched event deleteOriginal).calls = [])
      ↔ ToLower lib.unicodeToLower (Ext event.Name)
          ∉ [".jpg".toList, ".jpeg".toList, ".png".toList, ".webp".toList])
    ∧ (Ext event.Name ∈ [".gif".toList, ".bmp".toList, []] →
        ToLower lib.unicodeToLower (Ext event.Name)
          ∉ [".jpg".toList, ".jpeg".toList, ".png".toList, ".webp".toList])
    ∧ (Ext event.Name ∈ [".JPG".toList, ".Png".toList, ".WEBP".toList] →
        ToLower lib.unicodeToLower (Ext event.Name)
          ∈ [".jpg".toList, ".jpeg".toList, ".png".toList, ".webp".toList])
    ∧ (∀ pre e : List Char, (∀ x ∈ e, x ≠ '/' ∧ x ≠ '.') → event.Name = pre ++ '.' :: e →
        Ext event.Name = '.' :: e)
    ∧ (∀ pre seg : List Char, (∀ x ∈ seg, x ≠ '/' ∧ x ≠ '.') →
        (event.Name = pre ++ '/' :: seg ∨ event.Name = seg) → Ext event.Name = []) := by
  refine ⟨?_, ?_, ?_, ?_, ?_⟩
  · rw [← isSupportedFormat_iff]
    cases hfmt : isSupportedFormat lib event.Name with
    | true =>
      have := Process_calls_ne_nil_of_valid lib p s sched event deleteOriginal hdir hfmt
      simp [this]
    | false => simp [Process, hdir, hfmt]
  · intro h
    simp only [List.mem_cons, List.mem_singleton, List.not_mem_nil, or_false] at h
    have e1 : ToLower lib.unicodeToLower ".gif".toList = ".gif".toList := rfl
    have e2 : ToLower lib.unicodeToLower ".bmp".toList = ".bmp".toList := rfl
    have e3 : ToLower lib.unicodeToLower [] = [] := rfl
    rcases h with h | h | h <;> rw [h]
    · rw [e1]; decide
    · rw [e2]; decide
    · rw [e3]; decide
  · intro h
    simp only [List.mem_cons, List.mem_singleton, List.not_mem_nil, or_false] at h
    have e1 : ToLower lib.unicodeToLower ".JPG".toList = ".jpg".toList := rfl
    have e2 : ToLower lib.unicodeToLower ".Png".toList = ".png".toList := rfl
    have e3 : ToLower lib.unicodeToLower ".WEBP".toList = ".webp".toList := rfl
    rcases h with h | h | h <;> rw [h]
    · rw [e1]; decide
    · rw [e2]; decide
    · rw [e3]; decide
  · intro pre e he hn
    rw [hn]
    exact Ext_dot pre e he
  · intro pre seg hseg hn
    rcases hn with hn | hn <;> rw [hn]
    · exact (Ext_none seg hseg).1 pre
    · exact (Ext_none seg hseg).2

theorem Process_unsupported_format_iff_witness :
    HasPrefix "uploads/gopher.gif".toList (testProc [] false).config.FileDir = true
      ∧ (Process mockLibs (testProc [] false) () []
          ⟨"test-bucket".toList, "uploads/gopher.gif".toList⟩ true).result
        = .returned (some (.errorString "unsupported file format for uploads/gopher.gif".toList))
      ∧ (Process mockLibs (testProc [] false) () []
          ⟨"test-bucket".toList, "uploads/gopher.gif".toList⟩ true).calls = [] :=
  ⟨by decide,
    (Process_unsupported_format_iff mockLibs (testProc [] false) () []
      ⟨"test-bucket".toList, "uploads/gopher.gif".toList⟩ true (by decide)).1.mpr (by decide)⟩

/-- C3: the target plan `Process` builds for a config and a Name is the list of exactly three
targets, in this order: small (Path `Join(SmallImgDir, base)`, Width 400, Quality 65, not
passthrough), medium (Path `Join(MedImgDir, base)`, Width 800, Quality 75, not passthrough),
original (Path `Join(OrgImgDir, base)`, Width 0, Quality 0, `IsOrg`), with `base` equal to
`Base(Name)`, the part of Name after its last slash when that part is not empty; for the
directories small/, medium/, original/ and the Name uploads/gopher.png the paths are
small/gopher.png, medium/gopher.png and original/gopher.png. -/
theorem targetPlan_three_targets (config : Config) (name : GoString) :
    targetPlan config name =
        [ { Path := Join [config.SmallImgDir, Base name], Width := 400, Quality := 65,
            IsOrg := false },
          { Path := Join [config.MedImgDir, Base name], Width := 800, Quality := 75,
            IsOrg := false },
          { Path := Join [config.OrgImgDir, Base name], Width := 0, Quality := 0,
            IsOrg := true } ]
      ∧ (targetPlan config name).length = 3
      ∧ (∀ dir file : List Char, file ≠ [] → (∀ x ∈ file, x ≠ '/') →
          (name = dir ++ '/' :: file ∨ name = file) → Base name = file)
      ∧ (targetPlan
            { SmallImgDir := "small/".toList, MedImgDir := "medium/".toList,
              OrgImgDir := "original/".toList, FileDir := config.FileDir }
            "uploads/gopher.png".toList).map ImageTarget.Path
        = ["small/gopher.png".toList, "medium/gopher.png".toList,
            "original/gopher.png".toList] := by
  refine ⟨rfl, rfl, ?_, ?_⟩
  · intro dir file hne hfile hn
    rcases hn with hn | hn <;> rw [hn]
    · exact (Base_last file hne hfile).1 dir
    · exact (Base_last file hne hfile).2
  · have hb : Base "uploads/gopher.png".toList = "gopher.png".toList := by decide
    have h1 : Join ["small/".toList, "gopher.png".toList] = "small/gopher.png".toList := by
      decide
    have h2 : Join ["medium/".toList, "gopher.png".toList] = "medium/gopher.png".toList := by
      decide
    have h3 : Join ["original/".toList, "gopher.png".toList] = "original/gopher.png".toList := by
      decide
    simp only [targetPlan, hb, h1, h2, h3, List.map_cons, List.map_nil]

/-! ## The fan-out: steps and invariant -/

theorem processAndUpload_eq {σ Img : Type} (lib : Libs Img) (p : processor σ) (s : σ)
    (bucket : GoString) (img : Img) (originalData : Bytes) (t : ImageTarget) :
    processAndUpload lib p s bucket img originalData t =
      match (rendition lib img originalData t).2 with
      | some ee => (some (Errorf_w "failed to encode image: ".toList ee), [], s)
      | none =>
        ((p.storage.Upload s bucket t.Path (rendition lib img originalData t).1).1,
          [⟨.upload bucket t.Path (rendition lib img originalData t).1,
            (p.storage.Upload s bucket t.Path (rendition lib img originalData t).1).1⟩],
          (p.storage.Upload s bucket t.Path (rendition lib img originalData t).1).2) := by
  unfold processAndUpload rendition
  cases hO : t.IsOrg with
  | true => simp
  | false =>
    simp only [Bool.false_eq_true, if_false]

theorem getElem?_split {α : Type} :
    ∀ (l : List α) (i : Nat) (a : α), l[i]? = some a →
      ∃ l1 l2, l = l1 ++ a :: l2 ∧ l1.length = i := by
  intro l
  induction l with
  | nil => intro i a h; simp at h
  | cons x xs ih =>
    intro i a h
    cases i with
    | zero =>
      simp at h
      exact ⟨[], xs, by simp [h], rfl⟩
    | succ k =>
      simp at h
      obtain ⟨l1, l2, h1, h2⟩ := ih k a h
      exact ⟨x :: l1, l2, by simp [h1], by simp [h2]⟩

theorem set_split {α : Type} (l1 l2 : List α) (a b : α) :
    (l1 ++ a :: l2).set l1.length b = l1 ++ b :: l2 := by
  induction l1 with
  | nil => rfl
  | cons x xs ih => simp [List.set, ih]

theorem stepTask_spec {σ Img : Type} (lib : Libs Img) (p : processor σ) (bucket : GoString)
    (img : Img) (originalData : Bytes) (st : FanState σ) (i : Nat) :
    stepTask lib p bucket img originalData st i = st
      ∨ Step lib p bucket img originalData st (stepTask lib p bucket img originalData st i) := by
  unfold stepTask
  cases hg : st.tasks[i]? with
  | none => left; rfl
  | some g =>
    obtain ⟨l1, l2, hl, hi⟩ := getElem?_split _ _ _ hg
    obtain ⟨tasks, errs, calls, store⟩ := st
    obtain ⟨t, pc⟩ := g
    simp only at hl
    subst hl
    subst hi
    cases pc with
    | done => left; rfl
    | sending e =>
      simp only [Chan.send]
      by_cases hroom : errs.buf.length < errs.cap
      · right
        obtain ⟨cap, buf⟩ := errs
        simp only [hroom, if_true, set_split]
        exact Step.send l1 l2 t e cap buf calls store hroom
      · left
        simp [hroom]
    | ready =>
      right
      simp only [processAndUpload_eq, set_split]
      cases hE : (rendition lib img originalData t).2 with
      | some ee =>
        simp only [List.append_nil]
        exact Step.encodeFail l1 l2 t ee errs calls store hE
      | none =>
        simp only
        cases hU : (p.storage.Upload store bucket t.Path (rendition lib img originalData t).1).1 with
        | some cause =>
          simp only
          exact Step.uploadFail l1 l2 t cause errs calls store hE hU
        | none =>
          simp only
          exact Step.uploadOk l1 l2 t errs calls store hE hU

theorem FanInv_init {σ Img : Type} (lib : Libs Img) (bucket : GoString) (img : Img)
    (originalData : Bytes) (ts : List ImageTarget) (s : σ) :
    FanInv lib bucket img originalData ts (fanInit s ts) where
  tg := by simp [fanInit, List.map_map, Function.comp_def]
  cap := rfl
  room := by
    simp only [fanInit, List.length_nil, Nat.zero_add]
    exact le_trans (List.countP_le_length _) (by simp)
  reqs := by
    simp only [fanInit, List.map_nil, List.nil_append, List.filterMap_map]
    exact List.Perm.refl _
  ups := by simp [fanInit]
  cnt := by
    simp only [fanInit, List.length_nil, Nat.zero_add, List.countP_nil]
    rw [List.countP_eq_zero.mpr, List.countP_eq_zero.mpr]
    · intro g hg
      obtain ⟨t, _, rfl⟩ := List.mem_map.mp hg
      simp [Goroutine.ranEncodeFail]
    · intro g hg
      obtain ⟨t, _, rfl⟩ := List.mem_map.mp hg
      simp [Goroutine.isSending]
  good := by
    intro e he
    rcases he with he | ⟨g, hg, hpc⟩
    · simp [fanInit] at he
    · obtain ⟨t, _, rfl⟩ := List.mem_map.mp hg
      simp at hpc

theorem FailedRendition_mono {Img : Type} (lib : Libs Img) (bucket : GoString) (img : Img)
    (originalData : Bytes) (ts : List ImageTarget) (calls extra : List Call) (e : GoError)
    (h : FailedRendition lib bucket img originalData ts calls e) :
    FailedRendition lib bucket img originalData ts (calls ++ extra) e := by
  obtain ⟨t, ht, cause, rfl, h⟩ := h
  refine ⟨t, ht, cause, rfl, ?_⟩
  rcases h with h | ⟨h1, h2⟩
  · exact Or.inl h
  · exact Or.inr ⟨h1, List.mem_append_left _ h2⟩

theorem mem_of_map_t {l1 l2 : List Goroutine} {t : ImageTarget} {pc : PC} {ts : List ImageTarget}
    (h : (l1 ++ ⟨t, pc⟩ :: l2).map Goroutine.t = ts) : t ∈ ts := by
  rw [← h]
  simp

theorem FanInv_step {σ Img : Type} (lib : Libs Img) (p : processor σ) (bucket : GoString)
    (img : Img) (originalData : Bytes) (ts : List ImageTarget) (st st' : FanState σ)
    (hinv : FanInv lib bucket img originalData ts st)
    (hstep : Step lib p bucket img originalData st st') :
    FanInv lib bucket img originalData ts st' := by
  obtain ⟨tg, cap, room, reqs, ups, cnt, good⟩ := hinv
  cases hstep with
  | encodeFail l1 l2 t ee errs calls store hE =>
    have ht : t ∈ ts := mem_of_map_t tg
    refine ⟨?_, cap, ?_, ?_, ups, ?_, ?_⟩
    · simpa using tg
    · simpa [List.countP_append, List.countP_cons, Goroutine.notDone] using room
    · simpa [List.filterMap_append, List.filterMap_cons, Goroutine.pending, expectedReq, hE]
        using reqs
    · simp only [List.countP_append, List.countP_cons, Goroutine.isSending,
        Goroutine.ranEncodeFail, encodeFails, hE] at cnt ⊢
      simp at cnt ⊢
      omega
    · intro e he
      rcases he with he | ⟨g, hg, hpc⟩
      · exact good e (Or.inl he)
      · simp only [List.mem_append, List.mem_cons] at hg
        rcases hg with hg | rfl | hg
        · exact good e (Or.inr ⟨g, by simp [hg], hpc⟩)
        · simp only [PC.sending.injEq] at hpc
          subst hpc
          exact ⟨t, ht, _, rfl, Or.inl ⟨ee, hE, rfl⟩⟩
        · exact good e (Or.inr ⟨g, by simp [hg], hpc⟩)
  | uploadFail l1 l2 t cause errs calls store hE hU =>
    have ht : t ∈ ts := mem_of_map_t tg
    refine ⟨?_, cap, ?_, ?_, ?_, ?_, ?_⟩
    · simpa using tg
    · simpa [List.countP_append, List.countP_cons, Goroutine.notDone] using room
    · simp only [List.filterMap_append, List.filterMap_cons, Goroutine.pending, expectedReq, hE,
        List.map_append, List.map_cons, List.map_nil] at reqs ⊢
      refine List.Perm.trans ?_ reqs
      rw [List.perm_iff_count]
      intro a
      simp only [List.count_append, List.count_cons, List.count_nil]
      omega
    · intro c hc
      rcases List.mem_append.mp hc with hc | hc
      · exact ups c hc
      · simp only [List.mem_singleton] at hc
        subst hc
        rfl
    · simp only [List.countP_append, List.countP_cons, Goroutine.isSending,
        Goroutine.ranEncodeFail, encodeFails, hE, Call.failedUpload] at cnt ⊢
      simp at cnt ⊢
      omega
    · intro e he
      rcases he with he | ⟨g, hg, hpc⟩
      · exact FailedRendition_mono _ _ _ _ _ _ _ _ (good e (Or.inl he))
      · simp only [List.mem_append, List.mem_cons] at hg
        rcases hg with hg | rfl | hg
        · exact FailedRendition_mono _ _ _ _ _ _ _ _ (good e (Or.inr ⟨g, by simp [hg], hpc⟩))
        · simp only [PC.sending.injEq] at hpc
          subst hpc
          exact ⟨t, ht, _, rfl, Or.inr ⟨hE, by simp⟩⟩
        · exact FailedRendition_mono _ _ _ _ _ _ _ _ (good e (Or.inr ⟨g, by simp [hg], hpc⟩))
  | uploadOk l1 l2 t errs calls store hE hU =>
    refine ⟨?_, cap, ?_, ?_, ?_, ?_, ?_⟩
    · simpa using tg
    · simp only [List.countP_append, List.countP_cons, Goroutine.notDone] at room ⊢
      simp at room ⊢
      omega
    · simp only [List.filterMap_append, List.filterMap_cons, Goroutine.pending, expectedReq, hE,
        List.map_append, List.map_cons, List.map_nil] at reqs ⊢
      refine List.Perm.trans ?_ reqs
      rw [List.perm_iff_count]
      intro a
      simp only [List.count_append, List.count_cons, List.count_nil]
      omega
    · intro c hc
      rcases List.mem_append.mp hc with hc | hc
      · exact ups c hc
      · simp only [List.mem_singleton] at hc
        subst hc
        rfl
    · simp only [List.countP_append, List.countP_cons, Goroutine.isSending,
        Goroutine.ranEncodeFail, encodeFails, hE, Call.failedUpload] at cnt ⊢
      simp at cnt ⊢
      omega
    · intro e he
      rcases he with he | ⟨g, hg, hpc⟩
      · exact FailedRendition_mono _ _ _ _ _ _ _ _ (good e (Or.inl he))
      · simp only [List.mem_append, List.mem_cons] at hg
        rcases hg with hg | rfl | hg
        · exact FailedRendition_mono _ _ _ _ _ _ _ _ (good e (Or.inr ⟨g, by simp [hg], hpc⟩))
        · simp at hpc
        · exact FailedRendition_mono _ _ _ _ _ _ _ _ (good e (Or.inr ⟨g, by simp [hg], hpc⟩))
  | send l1 l2 t e cap' buf calls store hroom =>
    refine ⟨?_, cap, ?_, ?_, ups, ?_, ?_⟩
    · simpa using tg
    · simp only [List.countP_append, List.countP_cons, Goroutine.notDone, List.length_append] at room ⊢
      simp at room ⊢
      omega
    · simpa [List.filterMap_append, List.filterMap_cons, Goroutine.pending] using reqs
    · simp only [List.countP_append, List.countP_cons, Goroutine.isSending,
        Goroutine.ranEncodeFail, List.length_append] at cnt ⊢
      simp at cnt ⊢
      omega
    · intro e' he
      rcases he with he | ⟨g, hg, hpc⟩
      · simp only [List.mem_append, List.mem_singleton] at he
        rcases he with he | rfl
        · exact good e' (Or.inl he)
        · exact good e' (Or.inr ⟨⟨t, .sending e'⟩, by simp, rfl⟩)
      · simp only [List.mem_append, List.mem_cons] at hg
        rcases hg with hg | rfl | hg
        · exact good e' (Or.inr ⟨g, by simp [hg], hpc⟩)
        · simp at hpc
        · exact good e' (Or.inr ⟨g, by simp [hg], hpc⟩)

theorem FanInv_stepTask {σ Img : Type} (lib : Libs Img) (p : processor σ) (bucket : GoString)
    (img : Img) (originalData : Bytes) (ts : List ImageTarget) (st : FanState σ) (i : Nat)
    (hinv : FanInv lib bucket img originalData ts st) :
    FanInv lib bucket img originalData ts (stepTask lib p bucket img originalData st i) := by
  rcases stepTask_spec lib p bucket img originalData st i with h | h
  · rw [h]; exact hinv
  · exact FanInv_step lib p bucket img originalData ts _ _ hinv h

theorem FanInv_runSched {σ Img : Type} (lib : Libs Img) (p : processor σ) (bucket : GoString)
    (img : Img) (originalData : Bytes) (ts : List ImageTarget) (sched : List Nat) :
    ∀ st : FanState σ, FanInv lib bucket img originalData ts st →
      FanInv lib bucket img originalData ts (runSched lib p bucket img originalData st sched) := by
  induction sched with
  | nil => intro st h; exact h
  | cons i is ih =>
    intro st h
    exact ih _ (FanInv_stepTask lib p bucket img originalData ts st i h)

theorem stepTask_tasks {σ Img : Type} (lib : Libs Img) (p : processor σ) (bucket : GoString)
    (img : Img) (originalData : Bytes) (st : FanState σ) (i : Nat) :
    (stepTask lib p bucket img originalData st i).tasks = st.tasks
      ∨ ∃ g, (stepTask lib p bucket img originalData st i).tasks = st.tasks.set i g := by
  unfold stepTask
  cases st.tasks[i]? with
  | none => left; rfl
  | some g =>
    simp only
    cases g.pc with
    | done => left; rfl
    | sending e =>
      simp only
      cases st.errs.send e with
      | none => left; rfl
      | some ch => right; exact ⟨_, rfl⟩
    | ready =>
      simp only
      cases (processAndUpload lib p st.store bucket img originalData g.t).1 with
      | none => right; exact ⟨_, rfl⟩
      | some err => right; exact ⟨_, rfl⟩

theorem stepTask_length {σ Img : Type} (lib : Libs Img) (p : processor σ) (bucket : GoString)
    (img : Img) (originalData : Bytes) (st : FanState σ) (i : Nat) :
    (stepTask lib p bucket img originalData st i).tasks.length = st.tasks.length := by
  rcases stepTask_tasks lib p bucket img originalData st i with h | ⟨g, h⟩ <;> rw [h]
  simp

theorem stepTask_other {σ Img : Type} (lib : Libs Img) (p : processor σ) (bucket : GoString)
    (img : Img) (originalData : Bytes) (st : FanState σ) (i j : Nat) (hij : i ≠ j) :
    (stepTask lib p bucket img originalData st i).tasks[j]? = st.tasks[j]? := by
  rcases stepTask_tasks lib p bucket img originalData st i with h | ⟨g, h⟩ <;> rw [h]
  exact List.getElem?_set_ne hij

theorem stepTask_done {σ Img : Type} (lib : Libs Img) (p : processor σ) (bucket : GoString)
    (img : Img) (originalData : Bytes) (st : FanState σ) (i : Nat) (h : st.doneAt i) :
    stepTask lib p bucket img originalData st i = st := by
  obtain ⟨g, hg, hpc⟩ := h
  unfold stepTask
  rw [hg]
  simp only [hpc]

theorem doneAt_stepTask {σ Img : Type} (lib : Libs Img) (p : processor σ) (bucket : GoString)
    (img : Img) (originalData : Bytes) (st : FanState σ) (i j : Nat) (h : st.doneAt j) :
    (stepTask lib p bucket img originalData st i).doneAt j := by
  by_cases hij : i = j
  · subst hij
    rw [stepTask_done lib p bucket img originalData st i h]
    exact h
  · obtain ⟨g, hg, hpc⟩ := h
    exact ⟨g, by rw [stepTask_other lib p bucket img originalData st i j hij]; exact hg, hpc⟩

theorem room_of_notDone {σ Img : Type} (lib : Libs Img) (bucket : GoString)
    (img : Img) (originalData : Bytes) (ts : List ImageTarget) (st : FanState σ)
    (hinv : FanInv lib bucket img originalData ts st) (g : Goroutine) (hg : g ∈ st.tasks)
    (hnd : g.notDone = true) : st.errs.buf.length < st.errs.cap := by
  have hpos : 0 < st.tasks.countP Goroutine.notDone := List.countP_pos_iff.mpr ⟨g, hg, hnd⟩
  have := hinv.room
  omega

theorem stepTask_sending {σ Img : Type} (lib : Libs Img) (p : processor σ) (bucket : GoString)
    (img : Img) (originalData : Bytes) (ts : List ImageTarget) (st : FanState σ) (i : Nat)
    (hinv : FanInv lib bucket img originalData ts st) (g : Goroutine) (e : GoError)
    (hg : st.tasks[i]? = some g) (hpc : g.pc = .sending e) :
    (stepTask lib p bucket img originalData st i).doneAt i := by
  have hmem : g ∈ st.tasks := List.getElem?_mem hg
  have hroom := room_of_notDone lib bucket img originalData ts st hinv g hmem
    (by simp [Goroutine.notDone, hpc])
  have hlt : i < st.tasks.length := by
    rcases List.getElem?_eq_some_iff.mp hg with ⟨h, _⟩
    exact h
  unfold stepTask
  rw [hg]
  simp only [hpc, Chan.send, hroom, if_true]
  exact ⟨{ g with pc := .done }, by simp [List.getElem?_set_self, hlt], rfl⟩

theorem stepTask_twice {σ Img : Type} (lib : Libs Img) (p : processor σ) (bucket : GoString)
    (img : Img) (originalData : Bytes) (ts : List ImageTarget) (st : FanState σ) (i : Nat)
    (hinv : FanInv lib bucket img originalData ts st) (hi : i < st.tasks.length) :
    (stepTask lib p bucket img originalData
      (stepTask lib p bucket img originalData st i) i).doneAt i := by
  have hinv1 := FanInv_stepTask lib p bucket img originalData ts st i hinv
  have hlen := stepTask_length lib p bucket img originalData st i
  obtain ⟨g1, hg1⟩ : ∃ g1, (stepTask lib p bucket img originalData st i).tasks[i]? = some g1 :=
    ⟨_, List.getElem?_eq_getElem (by omega)⟩
  cases hpc1 : g1.pc with
  | done =>
    exact doneAt_stepTask lib p bucket img originalData _ i i ⟨g1, hg1, hpc1⟩
  | sending e =>
    exact stepTask_sending lib p bucket img originalData ts _ i hinv1 g1 e hg1 hpc1
  | ready =>
    -- a goroutine that has taken a step is not about to start
    exfalso
    obtain ⟨g, hg⟩ : ∃ g, st.tasks[i]? = some g := ⟨_, List.getElem?_eq_getElem hi⟩
    cases hpc : g.pc with
    | done =>
      rw [stepTask_done lib p bucket img originalData st i ⟨g, hg, hpc⟩, hg] at hg1
      cases hg1
      rw [hpc] at hpc1
      cases hpc1
    | sending e =>
      obtain ⟨g2, hg2, hpc2⟩ := stepTask_sending lib p bucket img originalData ts st i hinv g e hg hpc
      rw [hg1] at hg2
      cases hg2
      rw [hpc1] at hpc2
      cases hpc2
    | ready =>
      unfold stepTask at hg1
      rw [hg] at hg1
      simp only [hpc] at hg1
      split at hg1 <;> simp [List.getElem?_set_self, hi] at hg1 <;> rw [← hg1] at hpc1 <;> cases hpc1

theorem drain_foldl {σ Img : Type} (lib : Libs Img) (p : processor σ) (bucket : GoString)
    (img : Img) (originalData : Bytes) (ts : List ImageTarget) (is : List Nat) :
    ∀ st : FanState σ, FanInv lib bucket img originalData ts st →
      (∀ i ∈ is, i < st.tasks.length) →
      FanInv lib bucket img originalData ts
          (is.foldl (fun acc i => stepTask lib p bucket img originalData
            (stepTask lib p bucket img originalData acc i) i) st)
        ∧ ∀ j, (j ∈ is ∨ st.doneAt j) →
          (is.foldl (fun acc i => stepTask lib p bucket img originalData
            (stepTask lib p bucket img originalData acc i) i) st).doneAt j := by
  induction is with
  | nil =>
    intro st hinv _
    refine ⟨hinv, ?_⟩
    intro j hj
    rcases hj with hj | hj
    · simp at hj
    · exact hj
  | cons i is ih =>
    intro st hinv hlt
    have hinv2 : FanInv lib bucket img originalData ts
        (stepTask lib p bucket img originalData (stepTask lib p bucket img originalData st i) i) :=
      FanInv_stepTask _ _ _ _ _ _ _ _ (FanInv_stepTask _ _ _ _ _ _ _ _ hinv)
    have hlen : (stepTask lib p bucket img originalData
        (stepTask lib p bucket img originalData st i) i).tasks.length = st.tasks.length := by
      rw [stepTask_length, stepTask_length]
    have hi : i < st.tasks.length := hlt i (by simp)
    obtain ⟨h1, h2⟩ := ih _ hinv2 (by
      intro k hk
      rw [hlen]
      exact hlt k (by simp [hk]))
    refine ⟨h1, ?_⟩
    intro j hj
    apply h2
    rcases hj with hj | hj
    · rcases List.mem_cons.mp hj with rfl | hj
      · exact Or.inr (stepTask_twice lib p bucket img originalData ts st j hinv hi)
      · exact Or.inl hj
    · exact Or.inr (doneAt_stepTask _ _ _ _ _ _ _ _ (doneAt_stepTask _ _ _ _ _ _ _ _ hj))

theorem drain_spec {σ Img : Type} (lib : Libs Img) (p : processor σ) (bucket : GoString)
    (img : Img) (originalData : Bytes) (ts : List ImageTarget) (st : FanState σ)
    (hinv : FanInv lib bucket img originalData ts st) :
    FanInv lib bucket img originalData ts (drain lib p bucket img originalData st)
      ∧ (drain lib p bucket img originalData st).allDone = true := by
  obtain ⟨h1, h2⟩ := drain_foldl lib p bucket img originalData ts (List.range st.tasks.length)
    st hinv (by intro i hi; exact List.mem_range.mp hi)
  refine ⟨h1, ?_⟩
  have hlen : (drain lib p bucket img originalData st).tasks.length = st.tasks.length := by
    have a := h1.tg
    have b := hinv.tg
    have := congrArg List.length (a.trans b.symm)
    simpa using this
  simp only [FanState.allDone, List.all_eq_true, decide_eq_true_eq]
  intro g hg
  obtain ⟨j, hj, hgj⟩ := List.mem_iff_getElem.mp hg
  have hjlt : j < st.tasks.length := by rw [← hlen]; exact hj
  obtain ⟨g', hg', hpc⟩ := h2 j (Or.inl (List.mem_range.mpr hjlt))
  have : (drain lib p bucket img originalData st).tasks[j]? = some g := by
    rw [List.getElem?_eq_getElem hj, hgj]
  have hgg : g' = g := by
    have h3 : some g' = some g := hg'.symm.trans this
    exact Option.some.inj h3
  rw [← hgg]
  exact hpc

/-- Whatever the schedule, the backend and the plan: when `wg.Wait()` is reached every
goroutine returns, and the invariant of the fan-out holds in the state it leaves. -/
theorem fanOut_spec {σ Img : Type} (lib : Libs Img) (p : processor σ) (bucket : GoString)
    (img : Img) (originalData : Bytes) (ts : List ImageTarget) (s : σ) (sched : List Nat) :
    FanInv lib bucket img originalData ts (fanOut lib p bucket img originalData ts s sched)
      ∧ (fanOut lib p bucket img originalData ts s sched).allDone = true :=
  drain_spec lib p bucket img originalData ts _
    (FanInv_runSched lib p bucket img originalData ts sched _
      (FanInv_init lib bucket img originalData ts s))

theorem allDone_pc {σ : Type} (st : FanState σ) (h : st.allDone = true) :
    ∀ g ∈ st.tasks, g.pc = .done := by
  simpa [FanState.allDone] using h

/-- What the fan-out leaves when `wg.Wait()` returns, whatever the schedule: the uploads made
are, up to their order, one per target that encodes; each call made is an upload; the errors
on the channel are as many as the failed renditions, each is the error of a failed
rendition, and they fit the channel, whose capacity is the number of targets. -/
theorem fanOut_final {σ Img : Type} (lib : Libs Img) (p : processor σ) (bucket : GoString)
    (img : Img) (originalData : Bytes) (ts : List ImageTarget) (s : σ) (sched : List Nat) :
    ((fanOut lib p bucket img originalData ts s sched).calls.map Call.req).Perm
        (ts.filterMap (expectedReq lib bucket img originalData))
      ∧ (∀ c ∈ (fanOut lib p bucket img originalData ts s sched).calls, c.isUpload = true)
      ∧ (fanOut lib p bucket img originalData ts s sched).errs.buf.length
          = (fanOut lib p bucket img originalData ts s sched).calls.countP Call.failedUpload
            + ts.countP (encodeFails lib img originalData)
      ∧ (∀ e ∈ (fanOut lib p bucket img originalData ts s sched).errs.buf,
          FailedRendition lib bucket img originalData ts
            (fanOut lib p bucket img originalData ts s sched).calls e)
      ∧ (fanOut lib p bucket img originalData ts s sched).errs.cap = ts.length
      ∧ (fanOut lib p bucket img originalData ts s sched).errs.buf.length
          ≤ (fanOut lib p bucket img originalData ts s sched).errs.cap := by
  obtain ⟨hinv, hdone⟩ := fanOut_spec lib p bucket img originalData ts s sched
  have hpc := allDone_pc _ hdone
  generalize fanOut lib p bucket img originalData ts s sched = fan at hinv hpc
  have hpend : fan.tasks.filterMap (Goroutine.pending lib bucket img originalData) = [] := by
    rw [List.filterMap_eq_nil_iff]
    intro g hg
    simp [Goroutine.pending, hpc g hg]
  have hsend : fan.tasks.countP Goroutine.isSending = 0 := by
    rw [List.countP_eq_zero]
    intro g hg
    simp [Goroutine.isSending, hpc g hg]
  have hnd : fan.tasks.countP Goroutine.notDone = 0 := by
    rw [List.countP_eq_zero]
    intro g hg
    simp [Goroutine.notDone, hpc g hg]
  have henc : fan.tasks.countP (Goroutine.ranEncodeFail lib img originalData)
      = ts.countP (encodeFails lib img originalData) := by
    rw [← hinv.tg, List.countP_map]
    apply List.countP_congr
    intro g hg
    simp [Goroutine.ranEncodeFail, hpc g hg]
  have hreqs := hinv.reqs
  have hcnt := hinv.cnt
  have hroom := hinv.room
  rw [hpend, List.append_nil] at hreqs
  rw [hsend, henc] at hcnt
  rw [hnd] at hroom
  exact ⟨hreqs, hinv.ups, by omega, fun e he => hinv.good e (Or.inl he), hinv.cap, by omega⟩

/-- The run of `Process` on an event that passes validation, downloads and decodes: it is
the fan-out followed by the reading of `errs` and the optional delete. -/
theorem Process_main {σ Img : Type} (lib : Libs Img) (p : processor σ)
    (s : σ) (sched : List Nat) (event : GCSEvent) (deleteOriginal : Bool) (img : Img)
    (hdir : HasPrefix event.Name p.config.FileDir = true)
    (hfmt : isSupportedFormat lib event.Name = true)
    (hdl : (p.storage.Download s event.Bucket event.Name).1.2 = none)
    (hdec : lib.Decode (p.storage.Download s event.Bucket event.Name).1.1 = .ok img) :
    Process lib p s sched event deleteOriginal =
      (match (fanOut lib p event.Bucket img (p.storage.Download s event.Bucket event.Name).1.1
          (targetPlan p.config event.Name) (p.storage.Download s event.Bucket event.Name).2
          sched).errs.buf with
      | err :: _ =>
        { result := .returned (some err),
          calls := ⟨.download event.Bucket event.Name, none⟩ ::
            (fanOut lib p event.Bucket img (p.storage.Download s event.Bucket event.Name).1.1
              (targetPlan p.config event.Name) (p.storage.Download s event.Bucket event.Name).2
              sched).calls,
          store := (fanOut lib p event.Bucket img
              (p.storage.Download s event.Bucket event.Name).1.1
              (targetPlan p.config event.Name) (p.storage.Download s event.Bucket event.Name).2
              sched).store }
      | [] =>
        if deleteOriginal then
          { result := .returned
              ((p.storage.Delete (fanOut lib p event.Bucket img
                (p.storage.Download s event.Bucket event.Name).1.1
                (targetPlan p.config event.Name) (p.storage.Download s event.Bucket event.Name).2
                sched).store event.Bucket event.Name).1.map
                  (Errorf_w "failed to delete original image: ".toList)),
            calls := ⟨.download event.Bucket event.Name, none⟩ ::
              (fanOut lib p event.Bucket img (p.storage.Download s event.Bucket event.Name).1.1
                (targetPlan p.config event.Name) (p.storage.Download s event.Bucket event.Name).2
                sched).calls ++
              [⟨.delete event.Bucket event.Name,
                (p.storage.Delete (fanOut lib p event.Bucket img
                  (p.storage.Download s event.Bucket event.Name).1.1
                  (targetPlan p.config event.Name)
                  (p.storage.Download s event.Bucket event.Name).2
                  sched).store event.Bucket event.Name).1⟩],
            store := (p.storage.Delete (fanOut lib p event.Bucket img
                (p.storage.Download s event.Bucket event.Name).1.1
                (targetPlan p.config event.Name) (p.storage.Download s event.Bucket event.Name).2
                sched).store event.Bucket event.Name).2 }
        else
          { result := .returned none,
            calls := ⟨.download event.Bucket event.Name, none⟩ ::
              (fanOut lib p event.Bucket img (p.storage.Download s event.Bucket event.Name).1.1
                (targetPlan p.config event.Name) (p.storage.Download s event.Bucket event.Name).2
                sched).calls,
            store := (fanOut lib p event.Bucket img
                (p.storage.Download s event.Bucket event.Name).1.1
                (targetPlan p.config event.Name) (p.storage.Download s event.Bucket event.Name).2
                sched).store }) := by
  have hdone := (fanOut_spec lib p event.Bucket img
    (p.storage.Download s event.Bucket event.Name).1.1 (targetPlan p.config event.Name)
    (p.storage.Download s event.Bucket event.Name).2 sched).2
  unfold Process
  simp only [hdir, hfmt, hdl, hdec, hdone, Bool.not_true, Bool.false_eq_true, if_false]
  split
  · rfl
  · cases deleteOriginal with
    | false => rfl
    | true =>
      simp only [if_true]
      split <;> rename_i h <;> simp [h]

/-- The result and the trace of `Process` on an event that passes validation, downloads and
decodes, in terms of what the fan-out leaves. -/
theorem Process_main_split {σ Img : Type} (lib : Libs Img) (p : processor σ)
    (s : σ) (sched : List Nat) (event : GCSEvent) (deleteOriginal : Bool) (img : Img)
    (hdir : HasPrefix event.Name p.config.FileDir = true)
    (hfmt : isSupportedFormat lib event.Name = true)
    (hdl : (p.storage.Download s event.Bucket event.Name).1.2 = none)
    (hdec : lib.Decode (p.storage.Download s event.Bucket event.Name).1.1 = .ok img) :
    (Process lib p s sched event deleteOriginal).result =
        (match (processFan lib p s sched event img).errs.buf with
        | err :: _ => .returned (some err)
        | [] =>
          if deleteOriginal then
            .returned ((p.storage.Delete (processFan lib p s sched event img).store
              event.Bucket event.Name).1.map (Errorf_w "failed to delete original image: ".toList))
          else .returned none)
      ∧ (Process lib p s sched event deleteOriginal).calls =
        ⟨.download event.Bucket event.Name, none⟩ :: (processFan lib p s sched event img).calls ++
          (match (processFan lib p s sched event img).errs.buf with
          | _ :: _ => []
          | [] =>
            if deleteOriginal then
              [⟨.delete event.Bucket event.Name,
                (p.storage.Delete (processFan lib p s sched event img).store
                  event.Bucket event.Name).1⟩]
            else []) := by
  rw [Process_main lib p s sched event deleteOriginal img hdir hfmt hdl hdec]
  unfold processFan
  cases (fanOut lib p event.Bucket img (p.storage.Download s event.Bucket event.Name).1.1
    (targetPlan p.config event.Name) (p.storage.Download s event.Bucket event.Name).2
    sched).errs.buf with
  | cons e es => simp
  | nil => cases deleteOriginal <;> simp

theorem failedUpload_iff (c : Call) :
    c.failedUpload = true ↔ c.isUpload = true ∧ c.err ≠ none := by
  obtain ⟨req, err⟩ := c
  cases req <;> cases err <;> simp [Call.failedUpload, Call.isUpload]

theorem plan_expected {Img : Type} (lib : Libs Img) (config : Config) (name bucket : GoString)
    (img : Img) (data : Bytes)
    (henc1 : (lib.Encode (lib.Resize img 400 0) 65).2 = none)
    (henc2 : (lib.Encode (lib.Resize img 800 0) 75).2 = none) :
    (targetPlan config name).filterMap (expectedReq lib bucket img data) =
      [.upload bucket (Join [config.SmallImgDir, Base name]) (lib.Encode (lib.Resize img 400 0) 65).1,
       .upload bucket (Join [config.MedImgDir, Base name]) (lib.Encode (lib.Resize img 800 0) 75).1,
       .upload bucket (Join [config.OrgImgDir, Base name]) data] := by
  simp [targetPlan, expectedReq, rendition, henc1, henc2]

theorem plan_encodeFails {Img : Type} (lib : Libs Img) (config : Config) (name : GoString)
    (img : Img) (data : Bytes) :
    (targetPlan config name).countP (encodeFails lib img data) = 0 ↔
      (lib.Encode (lib.Resize img 400 0) 65).2 = none
        ∧ (lib.Encode (lib.Resize img 800 0) 75).2 = none := by
  rw [List.countP_eq_zero]
  simp [targetPlan, encodeFails, rendition]

theorem processFan_final {σ Img : Type} (lib : Libs Img) (p : processor σ) (s : σ)
    (sched : List Nat) (event : GCSEvent) (img : Img) :
    ((processFan lib p s sched event img).calls.map Call.req).Perm
        ((targetPlan p.config event.Name).filterMap (expectedReq lib event.Bucket img
          (p.storage.Download s event.Bucket event.Name).1.1))
      ∧ (∀ c ∈ (processFan lib p s sched event img).calls, c.isUpload = true)
      ∧ (processFan lib p s sched event img).errs.buf.length
          = (processFan lib p s sched event img).calls.countP Call.failedUpload
            + (targetPlan p.config event.Name).countP
                (encodeFails lib img (p.storage.Download s event.Bucket event.Name).1.1)
      ∧ (∀ e ∈ (processFan lib p s sched event img).errs.buf,
          FailedRendition lib event.Bucket img (p.storage.Download s event.Bucket event.Name).1.1
            (targetPlan p.config event.Name) (processFan lib p s sched event img).calls e)
      ∧ (processFan lib p s sched event img).errs.cap = (targetPlan p.config event.Name).length
      ∧ (processFan lib p s sched event img).errs.buf.length
          ≤ (processFan lib p s sched event img).errs.cap :=
  fanOut_final lib p event.Bucket img _ _ _ sched

/-! ## The claims about the fan-out -/

/-- C4: for an event under `config.FileDir` with a supported extension whose download and
decode succeed, when both encodings succeed and every upload of the run succeeds, `Process`
with `deleteOriginal = false` returns nil; after the download it makes exactly three storage
calls, all uploads on the event's bucket, which are, up to their order, the small, the medium
and the original target path with their renditions; and it never calls `Delete`.  This holds
for every interleaving of the goroutines. -/
theorem Process_success_three_uploads {σ Img : Type} (lib : Libs Img) (p : processor σ)
    (s : σ) (sched : List Nat) (event : GCSEvent) (img : Img)
    (hdir : HasPrefix event.Name p.config.FileDir = true)
    (hfmt : isSupportedFormat lib event.Name = true)
    (hdl : (p.storage.Download s event.Bucket event.Name).1.2 = none)
    (hdec : lib.Decode (p.storage.Download s event.Bucket event.Name).1.1 = .ok img)
    (henc1 : (lib.Encode (lib.Resize img 400 0) 65).2 = none)
    (henc2 : (lib.Encode (lib.Resize img 800 0) 75).2 = none)
    (hup : ∀ c ∈ (Process lib p s sched event false).calls, c.isUpload = true → c.err = none) :
    (Process lib p s sched event false).result = .returned none
      ∧ (∃ ups, (Process lib p s sched event false).calls
            = ⟨.download event.Bucket event.Name, none⟩ :: ups
          ∧ ups.length = 3
          ∧ (ups.map Call.req).Perm
            [.upload event.Bucket (Join [p.config.SmallImgDir, Base event.Name])
                (lib.Encode (lib.Resize img 400 0) 65).1,
              .upload event.Bucket (Join [p.config.MedImgDir, Base event.Name])
                (lib.Encode (lib.Resize img 800 0) 75).1,
              .upload event.Bucket (Join [p.config.OrgImgDir, Base event.Name])
                (p.storage.Download s event.Bucket event.Name).1.1]
          ∧ ∀ c ∈ ups, c.err = none)
      ∧ (∀ c ∈ (Process lib p s sched event false).calls, c.isDelete = false) := by
  obtain ⟨hres, hcalls⟩ := Process_main_split lib p s sched event false img hdir hfmt hdl hdec
  obtain ⟨hperm, hups, hcnt, -, -, -⟩ := processFan_final lib p s sched event img
  rw [plan_expected lib p.config event.Name event.Bucket img _ henc1 henc2] at hperm
  rw [(plan_encodeFails lib p.config event.Name img _).mpr ⟨henc1, henc2⟩] at hcnt
  have hcalls2 : (Process lib p s sched event false).calls
      = ⟨.download event.Bucket event.Name, none⟩ :: (processFan lib p s sched event img).calls := by
    rw [hcalls]
    cases (processFan lib p s sched event img).errs.buf <;> simp
  have hok : ∀ c ∈ (processFan lib p s sched event img).calls, c.err = none := by
    intro c hc
    exact hup c (by rw [hcalls2]; exact List.mem_cons_of_mem _ hc) (hups c hc)
  have hnofail : (processFan lib p s sched event img).calls.countP Call.failedUpload = 0 := by
    rw [List.countP_eq_zero]
    intro c hc hf
    exact ((failedUpload_iff c).mp hf).2 (hok c hc)
  have hbuf : (processFan lib p s sched event img).errs.buf = [] := by
    apply List.length_eq_zero.mp
    omega
  refine ⟨?_, ⟨_, hcalls2, ?_, hperm, hok⟩, ?_⟩
  · rw [hres, hbuf]
    rfl
  · have := hperm.length_eq
    simpa using this
  · intro c hc
    rw [hcalls2] at hc
    rcases List.mem_cons.mp hc with rfl | hc
    · rfl
    · have := hups c hc
      obtain ⟨req, err⟩ := c
      cases req <;> simp_all [Call.isUpload, Call.isDelete]

theorem Process_main_calls {σ Img : Type} (lib : Libs Img) (p : processor σ)
    (s : σ) (sched : List Nat) (event : GCSEvent) (deleteOriginal : Bool) (img : Img)
    (hdir : HasPrefix event.Name p.config.FileDir = true)
    (hfmt : isSupportedFormat lib event.Name = true)
    (hdl : (p.storage.Download s event.Bucket event.Name).1.2 = none)
    (hdec : lib.Decode (p.storage.Download s event.Bucket event.Name).1.1 = .ok img) :
    ∃ tail, (Process lib p s sched event deleteOriginal).calls
        = ⟨.download event.Bucket event.Name, none⟩ ::
          (processFan lib p s sched event img).calls ++ tail
      ∧ (∀ c ∈ tail, c.isDelete = true ∧ c.req = .delete event.Bucket event.Name) := by
  obtain ⟨-, hcalls⟩ :=
    Process_main_split lib p s sched event deleteOriginal img hdir hfmt hdl hdec
  refine ⟨_, hcalls, ?_⟩
  cases (processFan lib p s sched event img).errs.buf with
  | cons e es => simp
  | nil => cases deleteOriginal <;> simp [Call.isDelete]

theorem failedUpload_mem_fan {σ Img : Type} (lib : Libs Img) (p : processor σ)
    (s : σ) (sched : List Nat) (event : GCSEvent) (deleteOriginal : Bool) (img : Img)
    (hdir : HasPrefix event.Name p.config.FileDir = true)
    (hfmt : isSupportedFormat lib event.Name = true)
    (hdl : (p.storage.Download s event.Bucket event.Name).1.2 = none)
    (hdec : lib.Decode (p.storage.Download s event.Bucket event.Name).1.1 = .ok img)
    (c : Call) (hc : c ∈ (Process lib p s sched event deleteOriginal).calls)
    (hu : c.isUpload = true) :
    c ∈ (processFan lib p s sched event img).calls := by
  obtain ⟨tail, hcalls, htail⟩ :=
    Process_main_calls lib p s sched event deleteOriginal img hdir hfmt hdl hdec
  rw [hcalls] at hc
  simp only [List.cons_append, List.mem_cons, List.mem_append] at hc
  rcases hc with rfl | hc | hc
  · simp [Call.isUpload] at hu
  · exact hc
  · have := (htail c hc).2
    obtain ⟨req, err⟩ := c
    simp only at this
    subst this
    simp [Call.isUpload] at hu

theorem filter_failedUpload_fan {σ Img : Type} (lib : Libs Img) (p : processor σ)
    (s : σ) (sched : List Nat) (event : GCSEvent) (deleteOriginal : Bool) (img : Img)
    (hdir : HasPrefix event.Name p.config.FileDir = true)
    (hfmt : isSupportedFormat lib event.Name = true)
    (hdl : (p.storage.Download s event.Bucket event.Name).1.2 = none)
    (hdec : lib.Decode (p.storage.Download s event.Bucket event.Name).1.1 = .ok img) :
    (Process lib p s sched event deleteOriginal).calls.filter Call.failedUpload
      = (processFan lib p s sched event img).calls.filter Call.failedUpload := by
  obtain ⟨tail, hcalls, htail⟩ :=
    Process_main_calls lib p s sched event deleteOriginal img hdir hfmt hdl hdec
  rw [hcalls]
  have ht : tail.filter Call.failedUpload = [] := by
    rw [List.filter_eq_nil_iff]
    intro c hc hf
    have h1 := (htail c hc).2
    obtain ⟨req, err⟩ := c
    simp only at h1
    subst h1
    simp [Call.failedUpload] at hf
  simp [List.filter_cons, List.filter_append, ht, Call.failedUpload]

theorem org_mem_expected {Img : Type} (lib : Libs Img) (config : Config) (name bucket : GoString)
    (img : Img) (data : Bytes) :
    Req.upload bucket (Join [config.OrgImgDir, Base name]) data
      ∈ (targetPlan config name).filterMap (expectedReq lib bucket img data) := by
  rw [List.mem_filterMap]
  refine ⟨{ Path := Join [config.OrgImgDir, Base name], IsOrg := true }, ?_, ?_⟩
  · simp [targetPlan]
  · simp [expectedReq, rendition]

/-- C5: in every run that reaches the fan-out (validation, download and decode succeeded),
whatever the schedule, the backend and `deleteOriginal`, the trace has an `Upload` to the
path of the original target whose bytes are exactly the bytes `Download` returned; and
`processAndUpload` on any passthrough target hands `Upload` the original bytes whatever the
decoded image, the target's Width and Quality and the backend state. -/
theorem passthrough_uploads_downloaded_bytes {σ Img : Type} (lib : Libs Img) (p : processor σ)
    (s : σ) (sched : List Nat) (event : GCSEvent) (deleteOriginal : Bool) (img : Img)
    (hdir : HasPrefix event.Name p.config.FileDir = true)
    (hfmt : isSupportedFormat lib event.Name = true)
    (hdl : (p.storage.Download s event.Bucket event.Name).1.2 = none)
    (hdec : lib.Decode (p.storage.Download s event.Bucket event.Name).1.1 = .ok img) :
    (∃ err, (⟨.upload event.Bucket (Join [p.config.OrgImgDir, Base event.Name])
          (p.storage.Download s event.Bucket event.Name).1.1, err⟩ : Call)
        ∈ (Process lib p s sched event deleteOriginal).calls)
      ∧ (∀ (s1 : σ) (img1 : Img) (t : ImageTarget) (data : Bytes), t.IsOrg = true →
          (processAndUpload lib p s1 event.Bucket img1 data t).2.1
            = [⟨.upload event.Bucket t.Path data,
                (p.storage.Upload s1 event.Bucket t.Path data).1⟩]) := by
  constructor
  · obtain ⟨hperm, -, -, -, -, -⟩ := processFan_final lib p s sched event img
    obtain ⟨tail, hcalls, -⟩ :=
      Process_main_calls lib p s sched event deleteOriginal img hdir hfmt hdl hdec
    have hmem := hperm.symm.subset
      (org_mem_expected lib p.config event.Name event.Bucket img
        (p.storage.Download s event.Bucket event.Name).1.1)
    obtain ⟨c, hc, hreq⟩ := List.mem_map.mp hmem
    refine ⟨c.err, ?_⟩
    rw [hcalls, ← hreq]
    simp [hc]
  · intro s1 img1 t data hO
    simp [processAndUpload, hO]

/-- C7: for an event that passes validation, downloads and decodes, and for every schedule
and every outcome of the uploads: `Process` returns (`wg.Wait()` is never stuck) and every
goroutine of the fan-out has returned by then; the storage calls of the fan-out are, up to
their order, one `Upload` per target whose encoding succeeds, so the three target paths, once
each, when both encodings succeed, whichever uploads fail; and the errors placed on `errs`
are as many as the failed renditions, at most the capacity of the channel, which is the
number of targets, three. -/
theorem fanout_runs_every_task {σ Img : Type} (lib : Libs Img) (p : processor σ)
    (s : σ) (sched : List Nat) (event : GCSEvent) (deleteOriginal : Bool) (img : Img)
    (hdir : HasPrefix event.Name p.config.FileDir = true)
    (hfmt : isSupportedFormat lib event.Name = true)
    (hdl : (p.storage.Download s event.Bucket event.Name).1.2 = none)
    (hdec : lib.Decode (p.storage.Download s event.Bucket event.Name).1.1 = .ok img) :
    (∃ err, (Process lib p s sched event deleteOriginal).result = .returned err)
      ∧ (processFan lib p s sched event img).allDone = true
      ∧ (∃ tail, (Process lib p s sched event deleteOriginal).calls
            = ⟨.download event.Bucket event.Name, none⟩ ::
              (processFan lib p s sched event img).calls ++ tail
          ∧ ∀ c ∈ tail, c.isDelete = true)
      ∧ (∀ c ∈ (processFan lib p s sched event img).calls, c.isUpload = true)
      ∧ ((processFan lib p s sched event img).calls.map Call.req).Perm
          ((targetPlan p.config event.Name).filterMap (expectedReq lib event.Bucket img
            (p.storage.Download s event.Bucket event.Name).1.1))
      ∧ ((lib.Encode (lib.Resize img 400 0) 65).2 = none →
          (lib.Encode (lib.Resize img 800 0) 75).2 = none →
          ((processFan lib p s sched event img).calls.map Call.req).Perm
            [.upload event.Bucket (Join [p.config.SmallImgDir, Base event.Name])
                (lib.Encode (lib.Resize img 400 0) 65).1,
              .upload event.Bucket (Join [p.config.MedImgDir, Base event.Name])
                (lib.Encode (lib.Resize img 800 0) 75).1,
              .upload event.Bucket (Join [p.config.OrgImgDir, Base event.Name])
                (p.storage.Download s event.Bucket event.Name).1.1])
      ∧ (processFan lib p s sched event img).errs.buf.length
          = (processFan lib p s sched event img).calls.countP Call.failedUpload
            + (targetPlan p.config event.Name).countP
                (encodeFails lib img (p.storage.Download s event.Bucket event.Name).1.1)
      ∧ (processFan lib p s sched event img).errs.buf.length
          ≤ (processFan lib p s sched event img).errs.cap
      ∧ (processFan lib p s sched event img).errs.cap = (targetPlan p.config event.Name).length
      ∧ (targetPlan p.config event.Name).length = 3 := by
  obtain ⟨hperm, hups, hcnt, -, hcap, hle⟩ := processFan_final lib p s sched event img
  obtain ⟨hres, -⟩ := Process_main_split lib p s sched event deleteOriginal img hdir hfmt hdl hdec
  obtain ⟨tail, hcalls, htail⟩ :=
    Process_main_calls lib p s sched event deleteOriginal img hdir hfmt hdl hdec
  refine ⟨?_, (fanOut_spec lib p event.Bucket img _ _ _ sched).2,
    ⟨tail, hcalls, fun c hc => (htail c hc).1⟩, hups, hperm, ?_, hcnt, hle, hcap, rfl⟩
  · rw [hres]
    cases (processFan lib p s sched event img).errs.buf with
    | cons e es => exact ⟨_, rfl⟩
    | nil => cases deleteOriginal <;> exact ⟨_, rfl⟩
  · intro henc1 henc2
    rw [plan_expected lib p.config event.Name event.Bucket img _ henc1 henc2] at hperm
    exact hperm

theorem expectedReq_some {Img : Type} (lib : Libs Img) (bucket : GoString) (img : Img)
    (data : Bytes) (t : ImageTarget) (r : Req)
    (h : expectedReq lib bucket img data t = some r) :
    r = .upload bucket t.Path (rendition lib img data t).1
      ∧ (rendition lib img data t).2 = none := by
  unfold expectedReq at h
  cases hE : (rendition lib img data t).2 with
  | some ee => rw [hE] at h; simp at h
  | none =>
    rw [hE] at h
    simp only [Option.some.injEq] at h
    exact ⟨h.symm, rfl⟩

theorem nodup_expected {Img : Type} (lib : Libs Img) (bucket : GoString) (img : Img)
    (data : Bytes) :
    ∀ ts : List ImageTarget, (ts.map ImageTarget.Path).Nodup →
      (ts.filterMap (expectedReq lib bucket img data)).Nodup := by
  intro ts
  induction ts with
  | nil => intro _; simp
  | cons t ts ih =>
    intro h
    rw [List.map_cons, List.nodup_cons] at h
    obtain ⟨hnot, hrest⟩ := h
    rw [List.filterMap_cons]
    cases hE : expectedReq lib bucket img data t with
    | none => exact ih hrest
    | some r =>
      simp only
      rw [List.nodup_cons]
      refine ⟨?_, ih hrest⟩
      intro hmem
      obtain ⟨t1, ht1, hr1⟩ := List.mem_filterMap.mp hmem
      have e1 := (expectedReq_some lib bucket img data t r hE).1
      have e2 := (expectedReq_some lib bucket img data t1 r hr1).1
      rw [e1] at e2
      simp only [Req.upload.injEq, true_and] at e2
      exact hnot (List.mem_map.mpr ⟨t1, ht1, e2.1.symm⟩)

/-- C6 (amended): for an event that passes validation, downloads and decodes, and a run in
which at least one rendition fails (an upload of the trace failed, or the encoder failed on a
target), whatever the schedule: `Process` returns a non-nil error that is
"failed to process and upload <t.Path>: <cause>" wrapping `cause`, for a target `t` of the
plan that did fail with `cause` (its encoder failed, or its upload is recorded as failed with
`cause`), and when the paths of the plan are pairwise distinct no upload to `t.Path` in the
trace succeeded; and when both encodings succeed and exactly one upload of the run failed,
on `path` with cause `e`, the error returned is
"failed to process and upload <path>: <e>" wrapping `e`. -/
theorem Process_reports_failed_rendition {σ Img : Type} (lib : Libs Img) (p : processor σ)
    (s : σ) (sched : List Nat) (event : GCSEvent) (deleteOriginal : Bool) (img : Img)
    (hdir : HasPrefix event.Name p.config.FileDir = true)
    (hfmt : isSupportedFormat lib event.Name = true)
    (hdl : (p.storage.Download s event.Bucket event.Name).1.2 = none)
    (hdec : lib.Decode (p.storage.Download s event.Bucket event.Name).1.1 = .ok img)
    (hfail : (∃ c ∈ (Process lib p s sched event deleteOriginal).calls, c.failedUpload = true)
      ∨ ∃ t ∈ targetPlan p.config event.Name,
          encodeFails lib img (p.storage.Download s event.Bucket event.Name).1.1 t = true) :
    (∃ t ∈ targetPlan p.config event.Name, ∃ cause,
        (Process lib p s sched event deleteOriginal).result
          = .returned (some (.wrapError
              ("failed to process and upload ".toList ++ t.Path ++ ": ".toList ++ cause.Error)
              cause))
        ∧ ((∃ ee, (rendition lib img (p.storage.Download s event.Bucket event.Name).1.1 t).2
                = some ee
              ∧ cause = .wrapError ("failed to encode image: ".toList ++ ee.Error) ee)
          ∨ ((rendition lib img (p.storage.Download s event.Bucket event.Name).1.1 t).2 = none
              ∧ (⟨.upload event.Bucket t.Path
                    (rendition lib img (p.storage.Download s event.Bucket event.Name).1.1 t).1,
                  some cause⟩ : Call)
                ∈ (Process lib p s sched event deleteOriginal).calls))
        ∧ (((targetPlan p.config event.Name).map ImageTarget.Path).Nodup →
            ∀ (d : Bytes) (err : Option GoError),
              (⟨.upload event.Bucket t.Path d, err⟩ : Call)
                ∈ (Process lib p s sched event deleteOriginal).calls → err ≠ none))
      ∧ (∀ (path : GoString) (d : Bytes) (e : GoError),
          (lib.Encode (lib.Resize img 400 0) 65).2 = none →
          (lib.Encode (lib.Resize img 800 0) 75).2 = none →
          (Process lib p s sched event deleteOriginal).calls.filter Call.failedUpload
            = [⟨.upload event.Bucket path d, some e⟩] →
          (Process lib p s sched event deleteOriginal).result
            = .returned (some (.wrapError
                ("failed to process and upload ".toList ++ path ++ ": ".toList ++ e.Error) e))) := by
  obtain ⟨hperm, hups, hcnt, hgood, -, -⟩ := processFan_final lib p s sched event img
  obtain ⟨hres, -⟩ := Process_main_split lib p s sched event deleteOriginal img hdir hfmt hdl hdec
  obtain ⟨tail, hcalls, -⟩ :=
    Process_main_calls lib p s sched event deleteOriginal img hdir hfmt hdl hdec
  have hfilter := filter_failedUpload_fan lib p s sched event deleteOriginal img hdir hfmt hdl hdec
  have hpos : 0 < (processFan lib p s sched event img).errs.buf.length := by
    rcases hfail with ⟨c, hc, hf⟩ | ⟨t, ht, hf⟩
    · have hcf := failedUpload_mem_fan lib p s sched event deleteOriginal img hdir hfmt hdl hdec
        c hc ((failedUpload_iff c).mp hf).1
      have : 0 < (processFan lib p s sched event img).calls.countP Call.failedUpload :=
        List.countP_pos_iff.mpr ⟨c, hcf, hf⟩
      omega
    · have : 0 < (targetPlan p.config event.Name).countP
          (encodeFails lib img (p.storage.Download s event.Bucket event.Name).1.1) :=
        List.countP_pos_iff.mpr ⟨t, ht, hf⟩
      omega
  cases hbuf : (processFan lib p s sched event img).errs.buf with
  | nil => rw [hbuf] at hpos; simp at hpos
  | cons e0 es =>
    rw [hbuf] at hres hcnt
    simp only at hres
    obtain ⟨t, ht, cause, he0, hwhy⟩ := hgood e0 (by rw [hbuf]; simp)
    have he0' : e0 = .wrapError
        ("failed to process and upload ".toList ++ t.Path ++ ": ".toList ++ cause.Error) cause := by
      rw [he0]; rfl
    refine ⟨⟨t, ht, cause, by rw [hres, he0'], ?_, ?_⟩, ?_⟩
    · rcases hwhy with ⟨ee, h1, h2⟩ | ⟨h1, h2⟩
      · exact Or.inl ⟨ee, h1, h2⟩
      · refine Or.inr ⟨h1, ?_⟩
        rw [hcalls]
        simp [h2]
    · intro hnd d err hmem herr
      subst herr
      have hfan := failedUpload_mem_fan lib p s sched event deleteOriginal img hdir hfmt hdl hdec
        _ hmem rfl
      have hreq : Req.upload event.Bucket t.Path d
          ∈ (processFan lib p s sched event img).calls.map Call.req :=
        List.mem_map.mpr ⟨_, hfan, rfl⟩
      obtain ⟨t1, ht1, hr1⟩ := List.mem_filterMap.mp (hperm.subset hreq)
      obtain ⟨e1, hok1⟩ := expectedReq_some lib event.Bucket img _ t1 _ hr1
      simp only [Req.upload.injEq, true_and] at e1
      have htt : t = t1 :=
        List.inj_on_of_nodup_map hnd ht ht1 e1.1
      subst htt
      rcases hwhy with ⟨ee, h1, -⟩ | ⟨-, h2⟩
      · rw [hok1] at h1
        cases h1
      · have hnodup : ((processFan lib p s sched event img).calls.map Call.req).Nodup :=
          (hperm.nodup_iff).mpr (nodup_expected lib event.Bucket img _ _ hnd)
        have hd : d = (rendition lib img
            (p.storage.Download s event.Bucket event.Name).1.1 t).1 := e1.2
        have heq := List.inj_on_of_nodup_map hnodup hfan h2 (by rw [hd])
        simp at heq
    · intro path d e henc1 henc2 hone
      rw [hfilter] at hone
      rcases hwhy with ⟨ee, h1, -⟩ | ⟨-, h2⟩
      · exfalso
        have hz := (plan_encodeFails lib p.config event.Name img
          (p.storage.Download s event.Bucket event.Name).1.1).mpr ⟨henc1, henc2⟩
        rw [List.countP_eq_zero] at hz
        exact hz t ht (by simp [encodeFails, h1])
      · have hmem : (⟨.upload event.Bucket t.Path
            (rendition lib img (p.storage.Download s event.Bucket event.Name).1.1 t).1,
            some cause⟩ : Call)
            ∈ (processFan lib p s sched event img).calls.filter Call.failedUpload :=
          List.mem_filter.mpr ⟨h2, rfl⟩
        rw [hone] at hmem
        simp only [List.mem_singleton, Call.mk.injEq, Req.upload.injEq, Option.some.injEq,
          true_and] at hmem
        obtain ⟨⟨hpath, -⟩, hcause⟩ := hmem
        rw [hres, he0', hpath, hcause]

/-- C9: with `deleteOriginal = true`, for an event that passes validation, downloads and
decodes, whose encodings and uploads all succeed and whose `Delete` call is recorded as
failing with cause `e`: `Process` returns "failed to delete original image: <e>" wrapping
`e`; the trace is the download, then three successful uploads, which are up to their order
those of the three target paths, then the failed `Delete`, and nothing after it. -/
theorem Process_delete_failure {σ Img : Type} (lib : Libs Img) (p : processor σ)
    (s : σ) (sched : List Nat) (event : GCSEvent) (img : Img) (e : GoError)
    (hdir : HasPrefix event.Name p.config.FileDir = true)
    (hfmt : isSupportedFormat lib event.Name = true)
    (hdl : (p.storage.Download s event.Bucket event.Name).1.2 = none)
    (hdec : lib.Decode (p.storage.Download s event.Bucket event.Name).1.1 = .ok img)
    (henc1 : (lib.Encode (lib.Resize img 400 0) 65).2 = none)
    (henc2 : (lib.Encode (lib.Resize img 800 0) 75).2 = none)
    (hup : ∀ c ∈ (Process lib p s sched event true).calls, c.isUpload = true → c.err = none)
    (hdel : (⟨.delete event.Bucket event.Name, some e⟩ : Call)
      ∈ (Process lib p s sched event true).calls) :
    (Process lib p s sched event true).result
        = .returned (some (.wrapError ("failed to delete original image: ".toList ++ e.Error) e))
      ∧ (GoError.wrapError ("failed to delete original image: ".toList ++ e.Error) e).Unwrap
          = some e
      ∧ (∃ ups, (Process lib p s sched event true).calls
            = ⟨.download event.Bucket event.Name, none⟩ :: ups
              ++ [⟨.delete event.Bucket event.Name, some e⟩]
          ∧ ups.length = 3
          ∧ (ups.map Call.req).Perm
            [.upload event.Bucket (Join [p.config.SmallImgDir, Base event.Name])
                (lib.Encode (lib.Resize img 400 0) 65).1,
              .upload event.Bucket (Join [p.config.MedImgDir, Base event.Name])
                (lib.Encode (lib.Resize img 800 0) 75).1,
              .upload event.Bucket (Join [p.config.OrgImgDir, Base event.Name])
                (p.storage.Download s event.Bucket event.Name).1.1]
          ∧ ∀ c ∈ ups, c.err = none) := by
  obtain ⟨hperm, hups, -, -, -, -⟩ := processFan_final lib p s sched event img
  obtain ⟨hres, hcalls⟩ := Process_main_split lib p s sched event true img hdir hfmt hdl hdec
  rw [plan_expected lib p.config event.Name event.Bucket img _ henc1 henc2] at hperm
  have hnotfan : (⟨.delete event.Bucket event.Name, some e⟩ : Call)
      ∉ (processFan lib p s sched event img).calls := by
    intro h
    have := hups _ h
    simp [Call.isUpload] at this
  cases hbuf : (processFan lib p s sched event img).errs.buf with
  | cons e0 es =>
    exfalso
    rw [hbuf] at hcalls
    rw [hcalls] at hdel
    simp only [List.append_nil, List.mem_cons] at hdel
    rcases hdel with h | h
    · cases h
    · exact hnotfan h
  | nil =>
    rw [hbuf] at hres hcalls
    simp only [if_true] at hres hcalls
    have hd : (p.storage.Delete (processFan lib p s sched event img).store
        event.Bucket event.Name).1 = some e := by
      rw [hcalls] at hdel
      simp only [List.cons_append, List.mem_cons, List.mem_append, List.not_mem_nil,
        or_false] at hdel
      rcases hdel with h | h | h
      · cases h
      · exact absurd h hnotfan
      · simp only [Call.mk.injEq, true_and] at h
        exact h.symm
    rw [hd] at hres hcalls
    refine ⟨by rw [hres]; rfl, rfl, ⟨_, hcalls, ?_, hperm, ?_⟩⟩
    · have := hperm.length_eq
      simpa using this
    · intro c hc
      exact hup c (by rw [hcalls]; simp [hc]) (hups c hc)

theorem Process_early_calls {σ Img : Type} (lib : Libs Img) (p : processor σ)
    (s : σ) (sched : List Nat) (event : GCSEvent) (deleteOriginal : Bool)
    (h : ¬ (HasPrefix event.Name p.config.FileDir = true
      ∧ isSupportedFormat lib event.Name = true
      ∧ (p.storage.Download s event.Bucket event.Name).1.2 = none
      ∧ ∃ img, lib.Decode (p.storage.Download s event.Bucket event.Name).1.1 = .ok img)) :
    (Process lib p s sched event deleteOriginal).calls = []
      ∨ (Process lib p s sched event deleteOriginal).calls
        = [⟨.download event.Bucket event.Name,
            (p.storage.Download s event.Bucket event.Name).1.2⟩] := by
  unfold Process
  cases hdir : HasPrefix event.Name p.config.FileDir with
  | false => left; simp
  | true =>
    cases hfmt : isSupportedFormat lib event.Name with
    | false => left; simp
    | true =>
      right
      simp only [Bool.not_true, Bool.false_eq_true, if_false]
      cases hdl : (p.storage.Download s event.Bucket event.Name).1.2 with
      | some e => rfl
      | none =>
        cases hdec : lib.Decode (p.storage.Download s event.Bucket event.Name).1.1 with
        | error e => rfl
        | ok img => exact absurd ⟨hdir, hfmt, hdl, img, hdec⟩ h

theorem no_delete_facts (calls : List Call) (bucket name : GoString) (P : Prop)
    (hnodel : ∀ c ∈ calls, c.isDelete = false) (hP : ¬ P) :
    calls.countP Call.isDelete ≤ 1
      ∧ (∀ c ∈ calls, c.isDelete = true → c.req = .delete bucket name)
      ∧ ((∃ c ∈ calls, c.isDelete = true) ↔ P)
      ∧ (∀ c ∈ calls, c.isDelete = true →
          ∃ ups, calls = ⟨.download bucket name, none⟩ :: ups ++ [c]
            ∧ ups.length = 3
            ∧ ∀ u ∈ ups, u.isUpload = true ∧ u.err = none) := by
  refine ⟨?_, ?_, ?_, ?_⟩
  · have : calls.countP Call.isDelete = 0 := by
      rw [List.countP_eq_zero]
      intro c hc
      simp [hnodel c hc]
    omega
  · intro c hc hd
    simp [hnodel c hc] at hd
  · constructor
    · rintro ⟨c, hc, hd⟩
      simp [hnodel c hc] at hd
    · intro h
      exact absurd h hP
  · intro c hc hd
    simp [hnodel c hc] at hd

/-- C8: in every run of `Process`: `Delete` is called at most once and only on the event's
(Bucket, Name); it is called if and only if `deleteOriginal` is true, validation, download
and decode succeeded, both encodings succeeded and no upload of the run failed; and when it
is called it is the last storage call, made after the download and three uploads that all
succeeded. -/
theorem Delete_called_iff_all_succeeded {σ Img : Type} (lib : Libs Img) (p : processor σ)
    (s : σ) (sched : List Nat) (event : GCSEvent) (deleteOriginal : Bool) :
    (Process lib p s sched event deleteOriginal).calls.countP Call.isDelete ≤ 1
      ∧ (∀ c ∈ (Process lib p s sched event deleteOriginal).calls, c.isDelete = true →
          c.req = .delete event.Bucket event.Name)
      ∧ ((∃ c ∈ (Process lib p s sched event deleteOriginal).calls, c.isDelete = true) ↔
          (deleteOriginal = true
            ∧ HasPrefix event.Name p.config.FileDir = true
            ∧ isSupportedFormat lib event.Name = true
            ∧ (p.storage.Download s event.Bucket event.Name).1.2 = none
            ∧ (∃ img, lib.Decode (p.storage.Download s event.Bucket event.Name).1.1 = .ok img
                ∧ (lib.Encode (lib.Resize img 400 0) 65).2 = none
                ∧ (lib.Encode (lib.Resize img 800 0) 75).2 = none)
            ∧ ∀ c ∈ (Process lib p s sched event deleteOriginal).calls, c.failedUpload = false))
      ∧ (∀ c ∈ (Process lib p s sched event deleteOriginal).calls, c.isDelete = true →
          ∃ ups, (Process lib p s sched event deleteOriginal).calls
              = ⟨.download event.Bucket event.Name, none⟩ :: ups ++ [c]
            ∧ ups.length = 3
            ∧ ∀ u ∈ ups, u.isUpload = true ∧ u.err = none) := by
  by_cases hmain : (HasPrefix event.Name p.config.FileDir = true
      ∧ isSupportedFormat lib event.Name = true
      ∧ (p.storage.Download s event.Bucket event.Name).1.2 = none
      ∧ ∃ img, lib.Decode (p.storage.Download s event.Bucket event.Name).1.1 = .ok img)
  · obtain ⟨hdir, hfmt, hdl, img, hdec⟩ := hmain
    obtain ⟨hperm, hups, hcnt, -, -, -⟩ := processFan_final lib p s sched event img
    obtain ⟨-, hcalls⟩ :=
      Process_main_split lib p s sched event deleteOriginal img hdir hfmt hdl hdec
    have hfanDel : ∀ c ∈ (processFan lib p s sched event img).calls, c.isDelete = false := by
      intro c hc
      have := hups c hc
      obtain ⟨req, err⟩ := c
      cases req <;> simp_all [Call.isUpload, Call.isDelete]
    have hcntDel : (processFan lib p s sched event img).calls.countP Call.isDelete = 0 := by
      rw [List.countP_eq_zero]
      intro c hc
      simp [hfanDel c hc]
    have hnodel : (Process lib p s sched event deleteOriginal).calls
          = ⟨.download event.Bucket event.Name, none⟩ ::
            (processFan lib p s sched event img).calls →
        ∀ c ∈ (Process lib p s sched event deleteOriginal).calls, c.isDelete = false := by
      intro hc c hcm
      rw [hc] at hcm
      rcases List.mem_cons.mp hcm with rfl | hcm
      · rfl
      · exact hfanDel c hcm
    cases hbuf : (processFan lib p s sched event img).errs.buf with
    | cons e0 es =>
      rw [hbuf] at hcalls hcnt
      simp only [List.append_nil] at hcalls
      apply no_delete_facts _ _ _ _ (hnodel hcalls)
      rintro ⟨-, -, -, -, ⟨img1, hdec1, henc1, henc2⟩, hnf⟩
      have himg : img1 = img := by
        rw [hdec] at hdec1
        cases hdec1
        rfl
      subst himg
      have hz := (plan_encodeFails lib p.config event.Name img1
        (p.storage.Download s event.Bucket event.Name).1.1).mpr ⟨henc1, henc2⟩
      have hz2 : (processFan lib p s sched event img1).calls.countP Call.failedUpload = 0 := by
        rw [List.countP_eq_zero]
        intro c hc
        simp [hnf c (by rw [hcalls]; exact List.mem_cons_of_mem _ hc)]
      simp at hcnt
      omega
    | nil =>
      rw [hbuf] at hcalls hcnt
      cases hdo : deleteOriginal with
      | false =>
        subst hdo
        simp only [Bool.false_eq_true, if_false, List.append_nil] at hcalls
        apply no_delete_facts _ _ _ _ (hnodel hcalls)
        rintro ⟨h1, -⟩
        cases h1
      | true =>
        subst hdo
        simp only [if_true] at hcalls
        have hz : (processFan lib p s sched event img).calls.countP Call.failedUpload = 0 := by
          simp only [List.length_nil] at hcnt
          omega
        have hz2 : (targetPlan p.config event.Name).countP
            (encodeFails lib img (p.storage.Download s event.Bucket event.Name).1.1) = 0 := by
          simp only [List.length_nil] at hcnt
          omega
        obtain ⟨henc1, henc2⟩ := (plan_encodeFails lib p.config event.Name img _).mp hz2
        rw [plan_expected lib p.config event.Name event.Bucket img _ henc1 henc2] at hperm
        rw [List.countP_eq_zero] at hz
        have hlen : (processFan lib p s sched event img).calls.length = 3 := by
          have := hperm.length_eq
          simpa using this
        have hmemdel : ∀ c ∈ (Process lib p s sched event true).calls, c.isDelete = true →
            c = ⟨.delete event.Bucket event.Name,
              (p.storage.Delete (processFan lib p s sched event img).store
                event.Bucket event.Name).1⟩ := by
          intro c hcm hd
          rw [hcalls] at hcm
          simp only [List.cons_append, List.mem_cons, List.mem_append, List.not_mem_nil,
            or_false] at hcm
          rcases hcm with rfl | hcm | rfl
          · simp [Call.isDelete] at hd
          · simp [hfanDel c hcm] at hd
          · rfl
        refine ⟨?_, ?_, ?_, ?_⟩
        · rw [hcalls]
          simp [List.countP_cons, List.countP_append, hcntDel, Call.isDelete]
        · intro c hcm hd
          rw [hmemdel c hcm hd]
        · constructor
          · intro _
            refine ⟨rfl, hdir, hfmt, hdl, ⟨img, hdec, henc1, henc2⟩, ?_⟩
            intro c hcm
            rw [hcalls] at hcm
            simp only [List.cons_append, List.mem_cons, List.mem_append, List.not_mem_nil,
              or_false] at hcm
            rcases hcm with rfl | hcm | rfl
            · rfl
            · simpa using hz c hcm
            · rfl
          · intro _
            refine ⟨⟨.delete event.Bucket event.Name,
              (p.storage.Delete (processFan lib p s sched event img).store
                event.Bucket event.Name).1⟩, ?_, rfl⟩
            rw [hcalls]
            simp
        · intro c hcm hd
          rw [hmemdel c hcm hd]
          refine ⟨_, hcalls, hlen, ?_⟩
          intro u hu
          refine ⟨hups u hu, ?_⟩
          by_contra hne
          exact hz u hu ((failedUpload_iff u).mpr ⟨hups u hu, hne⟩)
  · have hearly := Process_early_calls lib p s sched event deleteOriginal hmain
    have hnodel : ∀ c ∈ (Process lib p s sched event deleteOriginal).calls,
        c.isDelete = false := by
      intro c hc
      rcases hearly with h | h <;> rw [h] at hc
      · simp at hc
      · simp only [List.mem_singleton] at hc
        subst hc
        rfl
    apply no_delete_facts _ _ _ _ hnodel
    rintro ⟨-, h2, h3, h4, ⟨img, h5, -, -⟩, -⟩
    exact hmain ⟨h2, h3, h4, img, h5⟩

/-! ## Concrete runs -/

theorem Process_success_three_uploads_witness :
    (∀ c ∈ (Process mockLibs (testProc [] false) () [2, 0, 1] testEvent false).calls,
        c.isUpload = true → c.err = none)
      ∧ (Process mockLibs (testProc [] false) () [2, 0, 1] testEvent false).result
        = .returned none
      ∧ (∀ c ∈ (Process mockLibs (testProc [] false) () [2, 0, 1] testEvent false).calls,
          c.isDelete = false) :=
  ⟨by decide,
    (Process_success_three_uploads mockLibs (testProc [] false) () [2, 0, 1] testEvent testData
      (by decide) (by decide) rfl rfl rfl rfl (by decide)).1,
    (Process_success_three_uploads mockLibs (testProc [] false) () [2, 0, 1] testEvent testData
      (by decide) (by decide) rfl rfl rfl rfl (by decide)).2.2⟩

theorem passthrough_uploads_downloaded_bytes_witness :
    HasPrefix testEvent.Name (testProc [] false).config.FileDir = true
      ∧ isSupportedFormat mockLibs testEvent.Name = true
      ∧ ∃ err, (⟨.upload testEvent.Bucket
          (Join [(testProc [] false).config.OrgImgDir, Base testEvent.Name])
          ((testProc [] false).storage.Download () testEvent.Bucket testEvent.Name).1.1, err⟩ : Call)
        ∈ (Process mockLibs (testProc [] false) () [1, 0] testEvent true).calls :=
  ⟨by decide, by decide,
    (passthrough_uploads_downloaded_bytes mockLibs (testProc [] false) () [1, 0] testEvent true
      testData (by decide) (by decide) rfl rfl).1⟩

theorem Process_reports_failed_rendition_witness :
    (∃ c ∈ (Process mockLibs (testProc ["original/gopher.png".toList] false) ()
        [0, 2, 1, 2] testEvent true).calls, c.failedUpload = true)
      ∧ (Process mockLibs (testProc ["original/gopher.png".toList] false) ()
          [0, 2, 1, 2] testEvent true).result
        = .returned (some (.wrapError
            ("failed to process and upload ".toList ++ "original/gopher.png".toList
              ++ ": ".toList ++ (GoError.errorString "invalid argument".toList).Error)
            (.errorString "invalid argument".toList))) :=
  ⟨by decide,
    (Process_reports_failed_rendition mockLibs (testProc ["original/gopher.png".toList] false) ()
      [0, 2, 1, 2] testEvent true testData (by decide) (by decide) rfl rfl
      (Or.inl (by decide))).2
      "original/gopher.png".toList testData (.errorString "invalid argument".toList) rfl rfl
      (by decide)⟩

theorem fanout_runs_every_task_witness :
    HasPrefix testEvent.Name (testProc ["small/gopher.png".toList] false).config.FileDir = true
      ∧ isSupportedFormat mockLibs testEvent.Name = true
      ∧ (∃ err, (Process mockLibs (testProc ["small/gopher.png".toList] false) () []
          testEvent false).result = .returned err)
      ∧ (processFan mockLibs (testProc ["small/gopher.png".toList] false) () []
          testEvent testData).allDone = true :=
  ⟨by decide, by decide,
    (fanout_runs_every_task mockLibs (testProc ["small/gopher.png".toList] false) () []
      testEvent false testData (by decide) (by decide) rfl rfl).1,
    (fanout_runs_every_task mockLibs (testProc ["small/gopher.png".toList] false) () []
      testEvent false testData (by decide) (by decide) rfl rfl).2.1⟩

theorem Process_delete_failure_witness :
    (⟨.delete testEvent.Bucket testEvent.Name, some (.errorString "permission denied".toList)⟩
        : Call) ∈ (Process mockLibs (testProc [] true) () [1, 2, 0] testEvent true).calls
      ∧ (Process mockLibs (testProc [] true) () [1, 2, 0] testEvent true).result
        = .returned (some (.wrapError ("failed to delete original image: ".toList
            ++ (GoError.errorString "permission denied".toList).Error)
            (.errorString "permission denied".toList))) :=
  ⟨by decide,
    (Process_delete_failure mockLibs (testProc [] true) () [1, 2, 0] testEvent testData
      (.errorString "permission denied".toList) (by decide) (by decide) rfl rfl rfl rfl
      (by decide) (by decide)).1⟩

/-- C6 as stated fails.  First run: the encoder fails on the medium target, the upload of
the original target is the only upload that fails, and the medium goroutine sends first;
exactly one upload failed, yet `Process` returns the medium target's encoding error and not
"failed to process and upload original/gopher.png: invalid argument".  Second run: the small
and the medium directory are the same and the first upload fails; the error names
out/gopher.png, a path to which the trace also has a successful upload. -/
theorem Process_single_upload_failure_counterexample :
    ((Process encodeFailLibs (testProc ["original/gopher.png".toList] false) ()
          [1, 1, 2, 2, 0, 0] testEvent true).calls.filter Call.failedUpload
        = [⟨.upload testEvent.Bucket "original/gopher.png".toList testData,
            some (.errorString "invalid argument".toList)⟩]
      ∧ (Process encodeFailLibs (testProc ["original/gopher.png".toList] false) ()
          [1, 1, 2, 2, 0, 0] testEvent true).result
        = .returned (some (.wrapError
            "failed to process and upload medium/gopher.png: failed to encode image: jpeg: image is too large to encode".toList
            (.wrapError "failed to encode image: jpeg: image is too large to encode".toList
              (.errorString "jpeg: image is too large to encode".toList))))
      ∧ (Process encodeFailLibs (testProc ["original/gopher.png".toList] false) ()
          [1, 1, 2, 2, 0, 0] testEvent true).result
        ≠ .returned (some (.wrapError
            "failed to process and upload original/gopher.png: invalid argument".toList
            (.errorString "invalid argument".toList))))
    ∧ ((Process mockLibs ⟨flakyStorage testData, sharedDirConfig⟩ 0 [0, 1, 2, 0]
          testEvent false).result
        = .returned (some (.wrapError
            "failed to process and upload out/gopher.png: connection reset".toList
            (.errorString "connection reset".toList)))
      ∧ (⟨.upload testEvent.Bucket "out/gopher.png".toList [75, 1, 2, 3], none⟩ : Call)
        ∈ (Process mockLibs ⟨flakyStorage testData, sharedDirConfig⟩ 0 [0, 1, 2, 0]
          testEvent false).calls) := by
  decide

end ImageProcessor
